import Mathlib

/-!
# bdb: FunctionFS gadget driver

A shallow embedding of `usb/functionfs.go`, `usb/descriptors.go`, the control loop and the
command worker of `cmd/bdbd/main.go` and the identity request of `cmd/bdb/client.go`, with
theorems about the descriptor encoder, the event codec, the gadget state machine, the
command worker and the client.

Conventions of the embedding:

* a Go `byte`/`uint8` is a `Nat` below 256, a `uint16` a `Nat` below 65536; narrowing
  conversions (`byte(v)`, `uint8(n)`, `uint32(n)`) are written as explicit `%`;
* a Go `[]byte` is a `List Nat`; a function that writes into its argument returns the
  updated slice; a sub-slice `b[off:]` shares its backing array with `b`, which `onSlice`
  models by splicing the updated sub-slice back;
* a run-time panic is an `Except.error` carrying a `Panic`;
* the `log.Print*` calls do not influence control flow and are left out;
* an `io.Reader` is a `Reader`: the bytes to come and a script saying, for each future call
  of `Read`, how many bytes it hands over at most and which error it reports;
* a loop that need not terminate in Go takes a number of passes it may make (`fuel`);
  `runLoop_terminates` bounds the passes the control loop needs;
* the `select` of the worker is resolved by a list saying, pass by pass, whether the stop
  signal is received; the shell session of command 2 is summarised by a `ShellSession`.
-/

namespace Bdb

/-! ## Slices and `encoding/binary` -/

/-- Run-time panics the encoder can raise. -/
inductive Panic where
  /-- An index or slice expression out of range. -/
  | indexOutOfRange
  /-- The explicit panic with the text "inconsistent ffs descriptors". -/
  | inconsistentFfsDescriptors
  deriving DecidableEq, Repr

/-- The statement `_ = b[i]`: panics unless `i` is a valid index of `b`. -/
def boundsCheck (b : List Nat) (i : Nat) : Except Panic Unit :=
  if i < b.length then .ok () else .error .indexOutOfRange

/-- The assignment `b[i] = v`. -/
def setIndex (b : List Nat) (i : Nat) (v : Nat) : Except Panic (List Nat) :=
  if i < b.length then .ok (b.set i v) else .error .indexOutOfRange

/-- `make([]byte, n)`: `n` zero bytes. -/
def makeBytes (n : Nat) : List Nat := List.replicate n 0

/-- The builtin `copy(dst, src)`: overwrites the first `min (len dst) (len src)` bytes of
`dst`; returns the updated `dst`. -/
def copy (dst src : List Nat) : List Nat :=
  src.take (min dst.length src.length) ++ dst.drop (min dst.length src.length)

/-- Run `f` on the sub-slice `b[off:]` and splice what it wrote back into `b`.
The slice expression panics when `off > len(b)`. -/
def onSlice {α : Type} (b : List Nat) (off : Nat)
    (f : List Nat → Except Panic (List Nat × α)) : Except Panic (List Nat × α) :=
  if off ≤ b.length then
    match f (b.drop off) with
    | .ok (sub, a) => .ok (b.take off ++ sub, a)
    | .error e => .error e
  else .error .indexOutOfRange

/-- `binary.LittleEndian.PutUint16(b, v)`. -/
def PutUint16 (b : List Nat) (v : Nat) : Except Panic (List Nat) := do
  boundsCheck b 1
  let b ← setIndex b 0 (v % 256)
  let b ← setIndex b 1 ((v >>> 8) % 256)
  return b

/-- `binary.LittleEndian.PutUint32(b, v)`. -/
def PutUint32 (b : List Nat) (v : Nat) : Except Panic (List Nat) := do
  boundsCheck b 3
  let b ← setIndex b 0 (v % 256)
  let b ← setIndex b 1 ((v >>> 8) % 256)
  let b ← setIndex b 2 ((v >>> 16) % 256)
  let b ← setIndex b 3 ((v >>> 24) % 256)
  return b

/-- The value `binary.LittleEndian.Uint16(b)` computes once its bounds check has passed. -/
def uint16le (b : List Nat) : Nat :=
  b.getD 0 0 ||| (b.getD 1 0 <<< 8)

/-- The value `binary.LittleEndian.Uint32(b)` computes once its bounds check has passed. -/
def uint32le (b : List Nat) : Nat :=
  b.getD 0 0 ||| (b.getD 1 0 <<< 8) ||| (b.getD 2 0 <<< 16) ||| (b.getD 3 0 <<< 24)

/-- `binary.LittleEndian.Uint16(b)`. -/
def Uint16 (b : List Nat) : Except Panic Nat := do
  boundsCheck b 1
  return uint16le b

/-- `binary.LittleEndian.Uint32(b)`. -/
def Uint32 (b : List Nat) : Except Panic Nat := do
  boundsCheck b 3
  return uint32le b

/-- `le.PutUint16(b[off:], v)`. -/
def PutUint16At (b : List Nat) (off v : Nat) : Except Panic (List Nat) :=
  (onSlice b off fun sub => (PutUint16 sub v).map fun sub => (sub, ())).map Prod.fst

/-- `le.PutUint32(b[off:], v)`. -/
def PutUint32At (b : List Nat) (off v : Nat) : Except Panic (List Nat) :=
  (onSlice b off fun sub => (PutUint32 sub v).map fun sub => (sub, ())).map Prod.fst

/-! ## Descriptors (`usb/functionfs.go`) -/

def functionfsStringsMagic : Nat := 2
def functionfsDescriptorsMagicV2 : Nat := 3

def functionfsHasFsDesc : Nat := 1
def functionfsHasHsDesc : Nat := 2
def functionfsHasSsDesc : Nat := 4

def dtInterface : Nat := 0x04
def dtEndpoint : Nat := 0x05

def DirectionOut : Nat := 0
def DirectionIn : Nat := 0x80

def usbEndpointXferBulk : Nat := 2

/-- The struct `interfaceDescriptor`; every field is a `uint8`. -/
structure interfaceDescriptor where
  interfaceNumber : Nat := 0
  alternateSetting : Nat := 0
  endpointsNumber : Nat := 0
  class_ : Nat := 0
  subClass : Nat := 0
  protocol : Nat := 0
  intf : Nat := 0
  deriving DecidableEq, Repr

/-- The struct `endpointDescriptor`; `maxPacketSize` is a `uint16`, the rest `uint8`. -/
structure endpointDescriptor where
  endpointAddress : Nat := 0
  attributes : Nat := 0
  maxPacketSize : Nat := 0
  interval : Nat := 0
  deriving DecidableEq, Repr

/-- `(*interfaceDescriptor).payload`. -/
def interfaceDescriptor.payload (id : interfaceDescriptor) : List Nat :=
  [id.interfaceNumber, id.alternateSetting, id.endpointsNumber, id.class_, id.subClass,
   id.protocol, id.intf]

/-- `(*endpointDescriptor).payload`. The `PutUint16` into `res[2:]` cannot panic on the
five-byte literal; should it, the literal is returned unchanged. -/
def endpointDescriptor.payload (ed : endpointDescriptor) : List Nat :=
  let res := [ed.endpointAddress, ed.attributes, 0, 0, ed.interval]
  match PutUint16At res 2 ed.maxPacketSize with
  | .ok res => res
  | .error _ => res

/-- The interface `baseDescriptor` with its two implementations. -/
inductive baseDescriptor where
  | intf (id : interfaceDescriptor)
  | endpoint (ed : endpointDescriptor)
  deriving DecidableEq, Repr

def baseDescriptor.payload : baseDescriptor → List Nat
  | .intf id => id.payload
  | .endpoint ed => ed.payload

def baseDescriptor.dtype : baseDescriptor → Nat
  | .intf _ => dtInterface
  | .endpoint _ => dtEndpoint

/-- `descLength`. -/
def descLength (desc : baseDescriptor) : Nat := desc.payload.length + 2

/-- `setDescriptor(dst, desc)`: returns the updated `dst` and the length written. -/
def setDescriptor (dst : List Nat) (desc : baseDescriptor) : Except Panic (List Nat × Nat) := do
  let payload := desc.payload
  let length := payload.length + 2
  boundsCheck dst (length - 1)
  let dst ← setIndex dst 0 (length % 256)
  let dst ← setIndex dst 1 desc.dtype
  let (dst, _) ← onSlice dst 2 fun sub => .ok (copy sub payload, ())
  return (dst, length)

/-- The struct `descriptors`. -/
structure descriptors where
  intf : interfaceDescriptor
  sink : endpointDescriptor
  source : endpointDescriptor
  deriving DecidableEq, Repr

/-- `(*descriptors).Len`. -/
def descriptors.Len (d : descriptors) : Nat :=
  descLength (.intf d.intf) + descLength (.endpoint d.sink) + descLength (.endpoint d.source)

/-- `(*descriptors).Marshal(dst)`: returns the updated `dst` and the offset reached. -/
def descriptors.Marshal (d : descriptors) (dst : List Nat) : Except Panic (List Nat × Nat) := do
  let (dst, offset) ← setDescriptor dst (.intf d.intf)
  let (dst, n) ← onSlice dst offset fun sub => setDescriptor sub (.endpoint d.sink)
  let offset := offset + n
  let (dst, n) ← onSlice dst offset fun sub => setDescriptor sub (.endpoint d.source)
  let offset := offset + n
  return (dst, offset)

/-- The three package-level variables `fsDescriptors`, `hsDescriptor`, `ssDescriptor`
(each a `*descriptors`, `none` for nil) that the encoder reads. -/
structure Config where
  fsDescriptors : Option descriptors
  hsDescriptor : Option descriptors
  ssDescriptor : Option descriptors
  deriving DecidableEq, Repr

/-- `setDescHeader(dst, length)`. -/
def setDescHeader (cfg : Config) (dst : List Nat) (length : Nat) : Except Panic (List Nat) := do
  boundsCheck dst 11
  let dst ← PutUint32 dst functionfsDescriptorsMagicV2
  let dst ← PutUint32At dst 4 length
  let flags := 0
  let flags := if cfg.fsDescriptors.isSome then flags ||| functionfsHasFsDesc else flags
  let flags := if cfg.hsDescriptor.isSome then flags ||| functionfsHasHsDesc else flags
  let flags := if cfg.ssDescriptor.isSome then flags ||| functionfsHasSsDesc else flags
  PutUint32At dst 8 flags

/-- The loop `for i := 0; i < descCount; i++` of `BuildUsbDescriptors`; `n` is the number
of iterations still to run, `descCount - i`. -/
def writeCounts : Nat → List Nat → Nat → Except Panic (List Nat × Nat)
  | 0, res, offset => .ok (res, offset)
  | n + 1, res, offset => do
    let res ← PutUint32At res offset 3
    writeCounts n res (offset + 4)

/-- One of the three blocks `if xsDescriptors != nil { offset += xs.Marshal(res[offset:]) }`. -/
def marshalIfPresent (d : Option descriptors) (res : List Nat) (offset : Nat) :
    Except Panic (List Nat × Nat) :=
  match d with
  | none => .ok (res, offset)
  | some d => do
    let (res, n) ← onSlice res offset d.Marshal
    return (res, offset + n)

/-- `BuildUsbDescriptors` up to, and without, the final consistency check: the buffer and
the running write offset. -/
def buildUsbDescriptorsBody (cfg : Config) : Except Panic (List Nat × Nat) := do
  let hLength := 12
  let descCount := 0
  let descLen := 0
  let (descCount, descLen) := match cfg.fsDescriptors with
    | some d => (descCount + 1, descLen + d.Len)
    | none => (descCount, descLen)
  let (descCount, descLen) := match cfg.hsDescriptor with
    | some d => (descCount + 1, descLen + d.Len)
    | none => (descCount, descLen)
  let (descCount, descLen) := match cfg.ssDescriptor with
    | some d => (descCount + 1, descLen + d.Len)
    | none => (descCount, descLen)
  let res := makeBytes (hLength + descCount * 4 + descLen)
  let res ← setDescHeader cfg res (res.length % 2 ^ 32)
  let offset := hLength
  let (res, offset) ← writeCounts descCount res offset
  let (res, offset) ← marshalIfPresent cfg.fsDescriptors res offset
  let (res, offset) ← marshalIfPresent cfg.hsDescriptor res offset
  let (res, offset) ← marshalIfPresent cfg.ssDescriptor res offset
  return (res, offset)

/-- `BuildUsbDescriptors`. -/
def BuildUsbDescriptors (cfg : Config) : Except Panic (List Nat) := do
  let (res, offset) ← buildUsbDescriptorsBody cfg
  if offset ≠ res.length then
    throw .inconsistentFfsDescriptors
  return res

/-! ## The shipped configuration (`usb/descriptors.go`) -/

def bdbClass : Nat := 0xff
def bdbSubclass : Nat := 42
def bdbProtocol : Nat := 1

def maxPacketSizeFs : Nat := 64
def maxPacketSizeHs : Nat := 512
def maxPacketSizeSs : Nat := 1024

def bdbStrInterface : String := "balena Device Bridge (BDB)"

def fsDescriptors : descriptors where
  intf := { interfaceNumber := 0, endpointsNumber := 2, class_ := bdbClass,
            subClass := bdbSubclass, protocol := bdbProtocol, intf := 1 }
  source := { endpointAddress := 1 ||| DirectionOut, attributes := usbEndpointXferBulk,
              maxPacketSize := maxPacketSizeFs }
  sink := { endpointAddress := 2 ||| DirectionIn, attributes := usbEndpointXferBulk,
            maxPacketSize := maxPacketSizeFs }

def hsDescriptor : descriptors where
  intf := fsDescriptors.intf
  source := { endpointAddress := 1 ||| DirectionOut, attributes := usbEndpointXferBulk,
              maxPacketSize := maxPacketSizeHs }
  sink := { endpointAddress := 2 ||| DirectionIn, attributes := usbEndpointXferBulk,
            maxPacketSize := maxPacketSizeHs }

/-- The package-level variables as shipped: `ssDescriptor` is declared and never assigned. -/
def shippedConfig : Config where
  fsDescriptors := some fsDescriptors
  hsDescriptor := some hsDescriptor
  ssDescriptor := none


/-! ## Strings blob (`usb/functionfs.go`) -/

/-- The bytes of a Go string: its UTF-8 encoding. -/
def utf8Bytes (s : String) : List Nat :=
  (s.toList.flatMap String.utf8EncodeChar).map UInt8.toNat

/-- `setStringsHeader(dst, length)`. -/
def setStringsHeader (dst : List Nat) (length : Nat) : Except Panic (List Nat) := do
  let dst ← PutUint32 dst functionfsStringsMagic
  let dst ← PutUint32At dst 4 length
  let dst ← PutUint32At dst 8 1
  PutUint32At dst 12 1

/-- `BuildUsbStrings`. -/
def BuildUsbStrings : Except Panic (List Nat) := do
  let hLength := 16
  let res := makeBytes (hLength + 2 + (utf8Bytes bdbStrInterface).length + 1)
  let res ← setStringsHeader res (res.length % 2 ^ 32)
  let res ← PutUint16At res hLength 0x0409
  let (res, _) ← onSlice res (hLength + 2) fun sub => .ok (copy sub (utf8Bytes bdbStrInterface), ())
  return res

/-! ## Byte streams (`io.Reader`) -/

/-- Errors a stream can report; `EOF` is `io.EOF`, which `ioutil.ReadAll` treats as the
regular end of input. -/
inductive IOError where
  | EOF
  | other (code : Nat)
  deriving DecidableEq, Repr

/-- What one call of `Read` will do: hand over at most `n` bytes and report `err`. -/
structure ReadStep where
  n : Nat
  err : Option IOError := none
  deriving DecidableEq, Repr

/-- An `io.Reader`: the bytes still to come and, for each future call of `Read`, how it
will behave. A reader whose script has run out reports `io.EOF`. -/
structure Reader where
  data : List Nat
  script : List ReadStep
  deriving DecidableEq, Repr

/-- Result of `Read(p)`: the bytes stored at the front of `p` (their number is Go's `n`), the
error, and the reader afterwards. -/
structure ReadResult where
  bytes : List Nat
  err : Option IOError
  reader : Reader
  deriving DecidableEq, Repr

/-- `r.Read(p)` with `len(p) = len`. -/
def Reader.Read (r : Reader) (len : Nat) : ReadResult :=
  match r.script with
  | [] => { bytes := [], err := some .EOF, reader := r }
  | step :: rest =>
    let bytes := r.data.take (min step.n len)
    { bytes := bytes, err := step.err,
      reader := { data := r.data.drop bytes.length, script := rest } }

/-- The effect on `buf` of a call `Read(buf[off:])` that stored `bytes`. -/
def storeAt (buf : List Nat) (off : Nat) (bytes : List Nat) : List Nat :=
  buf.take off ++ copy (buf.drop off) bytes

/-! ## Event codec (`usb/functionfs.go`) -/

def FunctionfsBind : Nat := 0
def FunctionfsUnbind : Nat := 1
def FunctionfsEnable : Nat := 2
def FunctionfsDisable : Nat := 3
def FunctionfsSetup : Nat := 4
def FunctionfsSuspend : Nat := 5
def FunctionfsResume : Nat := 6

/-- The anonymous struct `FfsEvent.SetupPayload`. -/
structure SetupPayload where
  RequestType : Nat
  Request : Nat
  Value : Nat
  Index : Nat
  Length : Nat
  deriving DecidableEq, Repr

/-- The struct `FfsEvent`; `Type_` is its field `Type`, the `FfsEventType` as an integer. -/
structure FfsEvent where
  Type_ : Nat
  SetupPayload : SetupPayload
  deriving DecidableEq, Repr

/-- The statements of `ReadFfsEvent` after its loop: the event built from the filled
12-byte buffer. The buffer has 12 bytes, so `buf[8]`, `buf[0]`, `buf[1]` and the bounds
checks inside `le.Uint16(buf[2:])`, `(buf[4:])`, `(buf[6:])` cannot fail. -/
def eventOfBuffer (buf : List Nat) : FfsEvent where
  Type_ := buf.getD 8 0
  SetupPayload :=
    { RequestType := buf.getD 0 0
      Request := buf.getD 1 0
      Value := uint16le (buf.drop 2)
      Index := uint16le (buf.drop 4)
      Length := uint16le (buf.drop 6) }

/-- The loop `for toRead > 0` of `ReadFfsEvent`, started with the reader `⟨data, script⟩`.
Each pass calls `input.Read(buf[len(buf)-toRead:])`; the reader it leaves behind has the
tail of the script, on which the loop continues. Returns the filled buffer or the error,
and the reader as left behind. -/
def readEventLoop : List ReadStep → List Nat → Nat → List Nat → Except IOError (List Nat) × Reader
  | script, data, 0, buf => (.ok buf, { data := data, script := script })
  | [], data, toRead + 1, _ =>
    let res := Reader.Read { data := data, script := [] } (toRead + 1)
    (.error (res.err.getD .EOF), res.reader)
  | step :: rest, data, toRead + 1, buf =>
    let res := Reader.Read { data := data, script := step :: rest } (toRead + 1)
    match res.err with
    | some err => (.error err, res.reader)
    | none =>
      readEventLoop rest res.reader.data (toRead + 1 - res.bytes.length)
        (storeAt buf (buf.length - (toRead + 1)) res.bytes)

/-- `ReadFfsEvent(input)`: the event or the error, and the reader as left behind. -/
def ReadFfsEvent (input : Reader) : Except IOError FfsEvent × Reader :=
  let toRead := 12
  let buf := makeBytes toRead
  let res := readEventLoop input.script input.data toRead buf
  (res.1.map eventOfBuffer, res.2)

/-! ## Control loop (`cmd/bdbd/main.go`) -/

/-- `io.LimitReader(r, n).Read(p)` with `len(p) = len`: the result of the read and the new
limit. -/
def limitedRead (r : Reader) (n : Nat) (len : Nat) : ReadResult × Nat :=
  if n = 0 then
    ({ bytes := [], err := some .EOF, reader := r }, n)
  else
    let res := r.Read (min len n)
    (res, n - res.bytes.length)

/-- `ioutil.ReadAll(io.LimitReader(r, n))` for `r = ⟨data, script⟩`: reads until the limited
reader reports an error; `io.EOF` counts as success. `spare k` is the free capacity of
`ReadAll`'s buffer when it holds `k` bytes, which is the `len(p)` it passes to `Read`; it
depends on the Go release. `b` is the buffer so far. Returns the data, the error and the
reader as left behind. -/
def readAllLimited (spare : Nat → Nat) :
    List ReadStep → List Nat → Nat → List Nat → (List Nat × Option IOError) × Reader
  | [], data, _, b => ((b, none), { data := data, script := [] })
  | step :: rest, data, n, b =>
    let res := limitedRead { data := data, script := step :: rest } n (spare b.length)
    match res.1.err with
    | some .EOF => ((b ++ res.1.bytes, none), res.1.reader)
    | some err => ((b ++ res.1.bytes, some err), res.1.reader)
    | none => readAllLimited spare rest res.1.reader.data res.2 (b ++ res.1.bytes)

/-- The local variable `state` of `controlLoop`. -/
structure GadgetState where
  bound : Bool
  enabled : Bool
  working : Bool
  deriving DecidableEq, Repr

/-- Everything `controlLoop` reads and affects: its `state`, the control endpoint as a
reader, the writes made to the control endpoint, the number of `go starter(workerStop)`
statements executed and the number of values sent on `workerStop`. -/
structure Machine where
  state : GadgetState
  control : Reader
  writes : List (List Nat)
  started : Nat
  stops : Nat
  deriving DecidableEq, Repr

/-- How far a run of `controlLoop` has come. -/
inductive Outcome where
  /-- The loop is about to read the next event. -/
  | running (m : Machine)
  /-- The loop was left by `break readLoop`. -/
  | finished (m : Machine)
  /-- `log.Fatalf` ended the process after a read error on the control endpoint. -/
  | fatal (err : IOError) (m : Machine)
  deriving DecidableEq, Repr

/-- The machine an outcome holds. -/
def Outcome.machine : Outcome → Machine
  | .running m => m
  | .finished m => m
  | .fatal _ m => m

/-- The `switch event.Type` of `controlLoop`. -/
def handleEvent (spare : Nat → Nat) (event : FfsEvent) (m : Machine) : Outcome :=
  if event.Type_ = FunctionfsBind then
    if m.state.bound then .finished m
    else if m.state.enabled then .finished m
    else .running { m with state := { m.state with bound := true } }
  else if event.Type_ = FunctionfsEnable then
    if !m.state.bound then .finished m
    else if m.state.enabled then .finished m
    else .running { m with state := { m.state with enabled := true }, started := m.started + 1 }
  else if event.Type_ = FunctionfsDisable then
    .finished { m with state := { m.state with enabled := false } }
  else if event.Type_ = FunctionfsUnbind then
    .finished { m with state := { m.state with bound := false } }
  else if event.Type_ = FunctionfsSetup then
    if event.SetupPayload.RequestType &&& DirectionIn ≠ 0 then
      .running { m with writes := m.writes ++ [[]] }
    else
      let res := readAllLimited spare m.control.script m.control.data event.SetupPayload.Length []
      .running { m with control := res.2 }
  else .running m

/-- One pass of the loop `readLoop: for { ... }`. -/
def iteration (spare : Nat → Nat) (m : Machine) : Outcome :=
  match ReadFfsEvent m.control with
  | (.error err, control) => .fatal err { m with control := control }
  | (.ok event, control) => handleEvent spare event { m with control := control }

/-- The loop `readLoop: for { ... }`, run for at most `fuel` passes. -/
def runLoop (spare : Nat → Nat) : Nat → Machine → Outcome
  | 0, m => .running m
  | fuel + 1, m =>
    match iteration spare m with
    | .running m => runLoop spare fuel m
    | out => out

/-- The statements of `controlLoop` after the loop. -/
def afterLoop (m : Machine) : Machine :=
  if m.state.working then { m with stops := m.stops + 1 } else m

/-- The state `controlLoop` starts in. -/
def Machine.initial (control : Reader) : Machine where
  state := { bound := false, enabled := false, working := false }
  control := control
  writes := []
  started := 0
  stops := 0

/-- `controlLoop(control, starter)`, its loop run for at most `fuel` passes. -/
def controlLoop (spare : Nat → Nat) (fuel : Nat) (control : Reader) : Outcome :=
  match runLoop spare fuel (Machine.initial control) with
  | .finished m => .finished (afterLoop m)
  | out => out

/-- A reader holding `data` that hands over whatever is asked for, for `reads` calls. -/
def Reader.ofBytes (data : List Nat) (reads : Nat) : Reader where
  data := data
  script := List.replicate reads { n := data.length }

/-- The 12-byte control record of an event without setup payload. -/
def eventRecord (type : Nat) : List Nat := [0, 0, 0, 0, 0, 0, 0, 0, type, 0, 0, 0]

/-! ## Command worker (`cmd/bdbd/main.go`) -/

/-- The values `os.Getenv` returns for the three variables `handleCommand` reads, each as
the bytes of a Go string; an unset variable gives the empty string. -/
structure Env where
  BALENA_DEVICE_UUID : List Nat
  BALENA_DEVICE_TYPE : List Nat
  BALENA_HOST_OS_VERSION : List Nat
  deriving DecidableEq, Repr

/-- The slice expression `s[lo:hi]` on a string, or on a slice whose capacity is its
length: panics unless `lo ≤ hi ≤ len(s)`. -/
def sliceRange (s : List Nat) (lo hi : Nat) : Except Panic (List Nat) :=
  if lo ≤ hi ∧ hi ≤ s.length then .ok ((s.take hi).drop lo) else .error .indexOutOfRange

/-- `fmt.Sprintf("%s\t%s %s", a, b, c)`: tab is byte 9, blank byte 32. -/
def sprintfDescription (a b c : List Nat) : List Nat :=
  a ++ [9] ++ b ++ [32] ++ c

/-- The errors `handleCommand` returns. -/
inductive CommandError where
  /-- `fmt.Errorf("host communication problem")`. -/
  | hostCommunicationProblem
  /-- `fmt.Errorf("unknown command")`. -/
  | unknownCommand
  /-- The error returned by `pty.Start`. -/
  | shellStart (err : IOError)
  deriving DecidableEq, Repr

/-- What the shell session of command 2 does is decided outside the repository (by
`pty.Start`, the shell process and the scheduling of the two pump goroutines); it is
summarised by whether `pty.Start` fails, how many reads of the input the pump makes before
the shell exits, and what `io.Copy(output, terminal)` writes to the output. -/
structure ShellSession where
  startError : Option IOError
  reads : Nat
  output : List (List Nat)
  deriving DecidableEq, Repr

/-- The loop `for running { n, err := input.Read(buf) ... }` of the shell pump, `buf` of 512
bytes, making at most `reads` reads: it ends on the first read error. -/
def shellPump : Nat → Reader → Reader
  | 0, input => input
  | reads + 1, input =>
    let res := input.Read 512
    match res.err with
    | some _ => res.reader
    | none => shellPump reads res.reader

/-- What `handleCommand` returns and leaves behind: its error, the input reader, and the
writes made to the output so far. -/
structure CommandResult where
  err : Option CommandError
  input : Reader
  output : List (List Nat)
  deriving DecidableEq, Repr

/-- `handleCommand(command, input, output)`; `output` lists the writes made so far. The
result of `output.Write(data)` is ignored by the code. -/
def handleCommand (env : Env) (session : ShellSession) (command : Nat) (input : Reader)
    (output : List (List Nat)) : Except Panic CommandResult :=
  if command = 0 then
    .ok { err := some .hostCommunicationProblem, input := input, output := output }
  else if command = 1 then do
    let uuid ← sliceRange env.BALENA_DEVICE_UUID 0 7
    let description :=
      sprintfDescription uuid env.BALENA_DEVICE_TYPE env.BALENA_HOST_OS_VERSION
    let data := makeBytes (description.length + 1)
    let data ← setIndex data 0 ((data.length - 1) % 256)
    let (data, _) ← onSlice data 1 fun sub => .ok (copy sub description, ())
    return { err := none, input := input, output := output ++ [data] }
  else if command = 2 then
    match session.startError with
    | some err => .ok { err := some (.shellStart err), input := input, output := output }
    | none =>
      .ok { err := none, input := shellPump session.reads input,
            output := output ++ session.output }
  else
    .ok { err := some .unknownCommand, input := input, output := output }

/-- `waitForInput(input, command)`: the byte it posts on the command channel, if any, and
the reader as left behind. -/
def waitForInput (input : Reader) : Option Nat × Reader :=
  let res := input.Read 1
  match res.err with
  | some _ => (some 0, res.reader)
  | none =>
    if res.bytes.length ≠ 0 then (some (res.bytes.getD 0 0), res.reader)
    else (none, res.reader)

/-- The variables of `worker`: the two streams and the flag `running`. -/
structure WorkerState where
  input : Reader
  output : List (List Nat)
  running : Bool
  deriving DecidableEq, Repr

/-- How far a run of `worker` has come. -/
inductive WorkerOutcome where
  /-- The loop is at its head with `running` set. -/
  | running (w : WorkerState)
  /-- The loop was left with `running` cleared and `worker` returned. -/
  | stopped (w : WorkerState)
  /-- The `select` waits for ever: nothing was posted and no stop signal comes. -/
  | blocked (w : WorkerState)
  /-- `handleCommand` panicked, which ends the process. -/
  | panicked (p : Panic) (w : WorkerState)
  deriving DecidableEq, Repr

/-- One pass of the loop `for running { ... }` of `worker`. `stop` says whether the
`select` of this pass receives from `stopSignal`; if it does not, it receives the command
`waitForInput` posts, or waits for ever when nothing is posted. The statement
`go waitForInput(input, commandChannel)` comes before the `select`, so the read of the
input is made in either case; when the stop signal is received, what was read is lost. -/
def workerPass (env : Env) (session : ShellSession) (stop : Bool) (w : WorkerState) :
    WorkerOutcome :=
  let posted := waitForInput w.input
  if stop then .running { w with input := posted.2, running := false }
  else
    match posted.1 with
    | none => .blocked { w with input := posted.2 }
    | some command =>
      match handleCommand env session command posted.2 w.output with
      | .error p => .panicked p { w with input := posted.2 }
      | .ok res =>
        .running { input := res.input, output := res.output,
                   running := if res.err.isSome then false else w.running }

/-- The loop `for running { ... }` of `worker` from the state `w`; the list says for each
pass whether its `select` receives the stop signal, and bounds the passes made. -/
def workerLoop (env : Env) (session : ShellSession) : List Bool → WorkerState → WorkerOutcome
  | [], w => if w.running then .running w else .stopped w
  | stop :: rest, w =>
    if w.running then
      match workerPass env session stop w with
      | .running w => workerLoop env session rest w
      | out => out
    else .stopped w

/-- `worker(input, output, stopSignal)`. -/
def worker (env : Env) (session : ShellSession) (stops : List Bool) (input : Reader)
    (output : List (List Nat)) : WorkerOutcome :=
  workerLoop env session stops { input := input, output := output, running := true }

/-! ## Host client (`cmd/bdb/client.go`) -/

/-- The panics of the `devices` command of the client. -/
inductive ClientPanic where
  /-- `panic(err)` after `in.Read(buf)` reported an error. -/
  | read (err : IOError)
  /-- A run-time panic. -/
  | runtime (p : Panic)
  deriving DecidableEq, Repr

/-- The statements of the `devices` command of `main` that follow the write of the command
byte: `buf := make([]byte, 250)`, `in.Read(buf)`, and the string `string(buf[1:buf[0]])`
handed to `fmt.Println`. Returns that string. -/
def clientDescription (input : Reader) : Except ClientPanic (List Nat) :=
  let buf := makeBytes 250
  let res := input.Read buf.length
  match res.err with
  | some err => .error (.read err)
  | none =>
    let buf := storeAt buf 0 res.bytes
    match sliceRange buf 1 (buf.getD 0 0) with
    | .ok s => .ok s
    | .error p => .error (.runtime p)

/-! ## Layout of the descriptor blob

The byte strings the encoder is shown to produce: `setDescriptor_append` and
`Marshal_append` show that `setDescriptor` and `Marshal` write `serialized`, and
`BuildUsbDescriptors_ok` that `BuildUsbDescriptors` returns `blobLayout`. -/

/-- The bytes `setDescriptor` writes for a descriptor: length, type, payload. -/
def baseDescriptor.serialized (desc : baseDescriptor) : List Nat :=
  descLength desc % 256 :: desc.dtype :: desc.payload

/-- The bytes `Marshal` writes for a descriptor set: interface, sink, source. -/
def descriptors.serialized (d : descriptors) : List Nat :=
  (baseDescriptor.intf d.intf).serialized ++
    ((baseDescriptor.endpoint d.sink).serialized ++ (baseDescriptor.endpoint d.source).serialized)

/-- Little-endian bytes of a `uint32`, as `PutUint32` stores them. -/
def le32 (v : Nat) : List Nat := [v % 256, (v >>> 8) % 256, (v >>> 16) % 256, (v >>> 24) % 256]

/-- Number of present (non-nil) speed variants. -/
def presentCount (cfg : Config) : Nat :=
  cfg.fsDescriptors.isSome.toNat + cfg.hsDescriptor.isSome.toNat + cfg.ssDescriptor.isSome.toNat

/-- `Len()` of a variant, 0 for an absent one. -/
def lenIfPresent : Option descriptors → Nat
  | none => 0
  | some d => d.Len

/-- Bytes `Marshal` writes for a variant, none for an absent one. -/
def serializedIfPresent : Option descriptors → List Nat
  | none => []
  | some d => d.serialized

/-- The flags word `setDescHeader` computes. -/
def headerFlags (cfg : Config) : Nat :=
  let flags := 0
  let flags := if cfg.fsDescriptors.isSome then flags ||| functionfsHasFsDesc else flags
  let flags := if cfg.hsDescriptor.isSome then flags ||| functionfsHasHsDesc else flags
  let flags := if cfg.ssDescriptor.isSome then flags ||| functionfsHasSsDesc else flags
  flags

/-- The length `BuildUsbDescriptors` allocates. -/
def blobLength (cfg : Config) : Nat :=
  12 + presentCount cfg * 4 + (lenIfPresent cfg.fsDescriptors + lenIfPresent cfg.hsDescriptor
    + lenIfPresent cfg.ssDescriptor)

/-- The layout of the descriptor blob: header, count words, descriptor sets. -/
def blobLayout (cfg : Config) : List Nat :=
  (le32 functionfsDescriptorsMagicV2 ++ (le32 (blobLength cfg % 2 ^ 32) ++ le32 (headerFlags cfg)))
    ++ ((List.replicate (presentCount cfg) (le32 3)).flatten
    ++ (serializedIfPresent cfg.fsDescriptors ++ (serializedIfPresent cfg.hsDescriptor
    ++ serializedIfPresent cfg.ssDescriptor)))

/-! ## What the slice operations write -/

theorem boundsCheck_ok {b : List Nat} {i : Nat} (h : i < b.length) :
    boundsCheck b i = .ok () := by
  simp [boundsCheck, h]

/-- Writing through the sub-slice `b[n:]` of `b = pre ++ rest`, `len pre = n`, leaves `pre`
alone and replaces `rest` by what `f` made of it. -/
theorem onSlice_append {α : Type} (pre rest : List Nat) (n : Nat) (hn : pre.length = n)
    (f : List Nat → Except Panic (List Nat × α)) :
    onSlice (pre ++ rest) n f = (f rest).map fun r => (pre ++ r.1, r.2) := by
  subst hn
  unfold onSlice
  rw [if_pos (by simp), List.drop_left, List.take_left]
  cases f rest <;> rfl

theorem PutUint32_append (old post : List Nat) (v : Nat) (h : old.length = 4) :
    PutUint32 (old ++ post) v = .ok (le32 v ++ post) := by
  match old, h with
  | [_, _, _, _], _ =>
    simp [PutUint32, boundsCheck, setIndex, le32, bind, Except.bind, pure, Except.pure]

theorem PutUint32At_append (pre old post : List Nat) (off v : Nat) (hp : pre.length = off)
    (h : old.length = 4) :
    PutUint32At (pre ++ (old ++ post)) off v = .ok (pre ++ (le32 v ++ post)) := by
  unfold PutUint32At
  rw [onSlice_append _ _ _ hp, PutUint32_append _ _ _ h]
  rfl

/-! ## The descriptor encoder -/

theorem endpoint_payload (ed : endpointDescriptor) : ed.payload =
    [ed.endpointAddress, ed.attributes, ed.maxPacketSize % 256,
      (ed.maxPacketSize >>> 8) % 256, ed.interval] := rfl

theorem descLength_intf (id : interfaceDescriptor) : descLength (.intf id) = 9 := rfl

theorem descLength_endpoint (ed : endpointDescriptor) : descLength (.endpoint ed) = 7 := rfl

theorem descriptors_Len (d : descriptors) : d.Len = 23 := rfl

theorem copy_append (old post src : List Nat) (h : old.length = src.length) :
    copy (old ++ post) src = src ++ post := by
  have h1 : min (old.length + post.length) src.length = src.length := by omega
  simp only [copy, List.length_append, h1, List.take_length]
  rw [← h, List.drop_left]

theorem setDescriptor_append (desc : baseDescriptor) (old post : List Nat)
    (h : old.length = descLength desc) :
    setDescriptor (old ++ post) desc = .ok (desc.serialized ++ post, descLength desc) := by
  unfold descLength at h
  unfold baseDescriptor.serialized descLength
  match old, h with
  | a :: b :: rest, h =>
    simp only [List.length_cons] at h
    have h2 : rest.length = desc.payload.length := by omega
    have h3 : desc.payload.length + 2 - 1 < (rest ++ post).length + 1 + 1 := by
      simp only [List.length_append]; omega
    simp only [setDescriptor, boundsCheck, setIndex, onSlice, bind, Except.bind, pure,
      Except.pure, List.length_cons, List.set_cons_zero, List.set_cons_succ, List.drop_succ_cons,
      List.drop_zero, List.take_succ_cons, List.take_zero, List.cons_append, if_pos h3]
    simp [copy_append _ _ _ h2]

theorem serialized_length (desc : baseDescriptor) : desc.serialized.length = descLength desc := rfl

theorem Marshal_append (d : descriptors) (old post : List Nat) (h : old.length = 23) :
    d.Marshal (old ++ post) = .ok (d.serialized ++ post, 23) := by
  obtain ⟨o1, o2, o3, rfl, h1, h2, h3⟩ : ∃ o1 o2 o3 : List Nat, old = o1 ++ (o2 ++ o3) ∧
      o1.length = 9 ∧ o2.length = 7 ∧ o3.length = 7 :=
    ⟨old.take 9, (old.drop 9).take 7, (old.drop 9).drop 7,
      by rw [List.take_append_drop, List.take_append_drop],
      by simp; omega, by simp; omega, by simp; omega⟩
  have s1 : setDescriptor (o1 ++ (o2 ++ (o3 ++ post))) (.intf d.intf)
      = .ok ((baseDescriptor.intf d.intf).serialized ++ (o2 ++ (o3 ++ post)), 9) :=
    setDescriptor_append _ _ _ h1
  have s2 : onSlice ((baseDescriptor.intf d.intf).serialized ++ (o2 ++ (o3 ++ post))) 9
      (fun sub => setDescriptor sub (.endpoint d.sink))
      = .ok ((baseDescriptor.intf d.intf).serialized ++
          ((baseDescriptor.endpoint d.sink).serialized ++ (o3 ++ post)), 7) := by
    rw [onSlice_append (baseDescriptor.intf d.intf).serialized _ 9 rfl,
      setDescriptor_append (.endpoint d.sink) _ _ h2]
    rfl
  have s3 : onSlice ((baseDescriptor.intf d.intf).serialized ++
          ((baseDescriptor.endpoint d.sink).serialized ++ (o3 ++ post))) (9 + 7)
      (fun sub => setDescriptor sub (.endpoint d.source))
      = .ok (d.serialized ++ post, 7) := by
    rw [← List.append_assoc, onSlice_append ((baseDescriptor.intf d.intf).serialized ++
      (baseDescriptor.endpoint d.sink).serialized) _ (9 + 7) rfl,
      setDescriptor_append (.endpoint d.source) _ _ h3]
    simp [Except.map, descriptors.serialized, descLength_endpoint]
  simp only [descriptors.Marshal, bind, Except.bind, pure, Except.pure, List.append_assoc, s1,
    s2, s3]

theorem marshalIfPresent_some (d : descriptors) (pre old post : List Nat) (off : Nat)
    (hp : pre.length = off) (h : old.length = 23) :
    marshalIfPresent (some d) (pre ++ (old ++ post)) off
      = .ok (pre ++ (d.serialized ++ post), off + 23) := by
  simp only [marshalIfPresent, bind, Except.bind, pure, Except.pure]
  rw [onSlice_append _ _ _ hp, Marshal_append _ _ _ h]
  rfl

theorem writeCounts_append (n : Nat) (pre old post : List Nat) (off : Nat)
    (hp : pre.length = off) (h : old.length = 4 * n) :
    writeCounts n (pre ++ (old ++ post)) off
      = .ok (pre ++ ((List.replicate n (le32 3)).flatten ++ post), off + 4 * n) := by
  induction n generalizing pre old off with
  | zero =>
    have : old = [] := List.eq_nil_of_length_eq_zero (by simpa using h)
    simp [writeCounts, this]
  | succ n ih =>
    obtain ⟨o1, o2, rfl, h1, h2⟩ : ∃ o1 o2 : List Nat, old = o1 ++ o2 ∧ o1.length = 4 ∧
        o2.length = 4 * n :=
      ⟨old.take 4, old.drop 4, by simp, by simp; omega, by simp; omega⟩
    simp only [writeCounts, bind, Except.bind, List.append_assoc]
    rw [PutUint32At_append _ _ _ _ _ hp h1]
    simp only []
    rw [← List.append_assoc pre, ih _ _ _ (by simp [hp, le32]) h2]
    simp [List.replicate_succ, Nat.mul_succ]
    omega


theorem setDescHeader_append (cfg : Config) (old post : List Nat) (length : Nat)
    (h : old.length = 12) :
    setDescHeader cfg (old ++ post) length
      = .ok ((le32 functionfsDescriptorsMagicV2 ++ (le32 length ++ le32 (headerFlags cfg)))
          ++ post) := by
  obtain ⟨o1, o2, o3, rfl, h1, h2, h3⟩ : ∃ o1 o2 o3 : List Nat, old = o1 ++ (o2 ++ o3) ∧
      o1.length = 4 ∧ o2.length = 4 ∧ o3.length = 4 :=
    ⟨old.take 4, (old.drop 4).take 4, (old.drop 4).drop 4,
      by rw [List.take_append_drop, List.take_append_drop],
      by simp; omega, by simp; omega, by simp; omega⟩
  have hb : boundsCheck (o1 ++ (o2 ++ (o3 ++ post))) 11 = .ok () :=
    boundsCheck_ok (by simp only [List.length_append]; omega)
  have s1 : PutUint32 (o1 ++ (o2 ++ (o3 ++ post))) functionfsDescriptorsMagicV2
      = .ok (le32 functionfsDescriptorsMagicV2 ++ (o2 ++ (o3 ++ post))) :=
    PutUint32_append _ _ _ h1
  have s2 : PutUint32At (le32 functionfsDescriptorsMagicV2 ++ (o2 ++ (o3 ++ post))) 4 length
      = .ok (le32 functionfsDescriptorsMagicV2 ++ (le32 length ++ (o3 ++ post))) :=
    PutUint32At_append (le32 functionfsDescriptorsMagicV2) o2 (o3 ++ post) 4 length rfl h2
  have s3 : PutUint32At (le32 functionfsDescriptorsMagicV2 ++ (le32 length ++ (o3 ++ post))) 8
      (headerFlags cfg)
      = .ok ((le32 functionfsDescriptorsMagicV2 ++ (le32 length ++ le32 (headerFlags cfg)))
          ++ post) := by
    rw [← List.append_assoc, PutUint32At_append (le32 functionfsDescriptorsMagicV2 ++ le32 length)
      o3 post 8 (headerFlags cfg) rfl h3]
    simp
  simp only [setDescHeader, bind, Except.bind, List.append_assoc, hb, s1, s2]
  rw [← List.append_assoc, ← List.append_assoc] at s3
  simpa only [headerFlags, List.append_assoc] using s3

theorem marshalIfPresent_append (d : Option descriptors) (pre old post : List Nat) (off : Nat)
    (hp : pre.length = off) (h : old.length = lenIfPresent d) :
    marshalIfPresent d (pre ++ (old ++ post)) off
      = .ok (pre ++ (serializedIfPresent d ++ post), off + lenIfPresent d) := by
  cases d with
  | none =>
    have : old = [] := List.eq_nil_of_length_eq_zero h
    simp [marshalIfPresent, serializedIfPresent, lenIfPresent, this]
  | some d => exact marshalIfPresent_some d pre old post off hp h

theorem serializedIfPresent_length (d : Option descriptors) :
    (serializedIfPresent d).length = lenIfPresent d := by
  cases d <;> rfl

theorem buildUsbDescriptorsBody_eq (cfg : Config) :
    buildUsbDescriptorsBody cfg = (do
      let res := makeBytes (blobLength cfg)
      let res ← setDescHeader cfg res (res.length % 2 ^ 32)
      let (res, offset) ← writeCounts (presentCount cfg) res 12
      let (res, offset) ← marshalIfPresent cfg.fsDescriptors res offset
      let (res, offset) ← marshalIfPresent cfg.hsDescriptor res offset
      let (res, offset) ← marshalIfPresent cfg.ssDescriptor res offset
      return (res, offset)) := by
  rcases cfg with ⟨_ | fs, _ | hs, _ | ss⟩ <;> rfl


theorem lenIfPresent_eq (d : Option descriptors) : lenIfPresent d = 23 * d.isSome.toNat := by
  cases d <;> rfl

theorem makeBytes_split (cfg : Config) :
    makeBytes (blobLength cfg) = List.replicate 12 0 ++ (List.replicate (4 * presentCount cfg) 0
      ++ (List.replicate (lenIfPresent cfg.fsDescriptors) 0
      ++ (List.replicate (lenIfPresent cfg.hsDescriptor) 0
      ++ List.replicate (lenIfPresent cfg.ssDescriptor) 0))) := by
  simp only [makeBytes, blobLength, List.append_replicate_replicate]
  congr 1
  omega

theorem blobLayout_length (cfg : Config) : (blobLayout cfg).length = blobLength cfg := by
  simp only [blobLayout, blobLength, List.length_append, serializedIfPresent_length, le32,
    List.length_flatten, List.map_replicate, List.sum_replicate, List.length_cons,
    List.length_nil, smul_eq_mul]
  omega

theorem buildUsbDescriptorsBody_ok (cfg : Config) :
    buildUsbDescriptorsBody cfg = .ok (blobLayout cfg, blobLength cfg) := by
  have hlen : (makeBytes (blobLength cfg)).length = blobLength cfg := by simp [makeBytes]
  have hH : ∀ a b c : Nat, (le32 a ++ (le32 b ++ le32 c)).length = 12 := fun _ _ _ => rfl
  have hC : ∀ k : Nat, (List.replicate k (le32 3)).flatten.length = 4 * k := by
    intro k
    simp only [List.length_flatten, List.map_replicate, List.sum_replicate, le32,
      List.length_cons, List.length_nil, smul_eq_mul]
    omega
  have h1 := setDescHeader_append cfg (List.replicate 12 0)
    (List.replicate (4 * presentCount cfg) 0
      ++ (List.replicate (lenIfPresent cfg.fsDescriptors) 0
      ++ (List.replicate (lenIfPresent cfg.hsDescriptor) 0
      ++ List.replicate (lenIfPresent cfg.ssDescriptor) 0))) (blobLength cfg % 2 ^ 32)
    (by simp)
  have h2 := writeCounts_append (presentCount cfg)
    (le32 functionfsDescriptorsMagicV2 ++ (le32 (blobLength cfg % 2 ^ 32)
      ++ le32 (headerFlags cfg)))
    (List.replicate (4 * presentCount cfg) 0)
    (List.replicate (lenIfPresent cfg.fsDescriptors) 0
      ++ (List.replicate (lenIfPresent cfg.hsDescriptor) 0
      ++ List.replicate (lenIfPresent cfg.ssDescriptor) 0)) 12 (hH _ _ _) (by simp)
  have h3 := marshalIfPresent_append cfg.fsDescriptors
    ((le32 functionfsDescriptorsMagicV2 ++ (le32 (blobLength cfg % 2 ^ 32)
      ++ le32 (headerFlags cfg))) ++ (List.replicate (presentCount cfg) (le32 3)).flatten)
    (List.replicate (lenIfPresent cfg.fsDescriptors) 0)
    (List.replicate (lenIfPresent cfg.hsDescriptor) 0
      ++ List.replicate (lenIfPresent cfg.ssDescriptor) 0) (12 + 4 * presentCount cfg)
    (by rw [List.length_append, hH, hC]) (by simp)
  have h4 := marshalIfPresent_append cfg.hsDescriptor
    (((le32 functionfsDescriptorsMagicV2 ++ (le32 (blobLength cfg % 2 ^ 32)
      ++ le32 (headerFlags cfg))) ++ (List.replicate (presentCount cfg) (le32 3)).flatten)
      ++ serializedIfPresent cfg.fsDescriptors)
    (List.replicate (lenIfPresent cfg.hsDescriptor) 0)
    (List.replicate (lenIfPresent cfg.ssDescriptor) 0)
    (12 + 4 * presentCount cfg + lenIfPresent cfg.fsDescriptors)
    (by rw [List.length_append, List.length_append, hH, hC, serializedIfPresent_length])
    (by simp)
  have h5 := marshalIfPresent_append cfg.ssDescriptor
    ((((le32 functionfsDescriptorsMagicV2 ++ (le32 (blobLength cfg % 2 ^ 32)
      ++ le32 (headerFlags cfg))) ++ (List.replicate (presentCount cfg) (le32 3)).flatten)
      ++ serializedIfPresent cfg.fsDescriptors) ++ serializedIfPresent cfg.hsDescriptor)
    (List.replicate (lenIfPresent cfg.ssDescriptor) 0) []
    (12 + 4 * presentCount cfg + lenIfPresent cfg.fsDescriptors
      + lenIfPresent cfg.hsDescriptor)
    (by rw [List.length_append, List.length_append, List.length_append, hH, hC,
      serializedIfPresent_length, serializedIfPresent_length])
    (by simp)
  simp only [List.append_assoc, List.append_nil] at h1 h2 h3 h4 h5
  rw [buildUsbDescriptorsBody_eq]
  simp only [bind, Except.bind, pure, Except.pure, hlen]
  rw [makeBytes_split]
  simp only [h1, h2, h3, h4, h5]
  simp only [blobLayout, List.append_assoc, Except.ok.injEq, Prod.mk.injEq, true_and]
  unfold blobLength
  omega

theorem BuildUsbDescriptors_ok (cfg : Config) : BuildUsbDescriptors cfg = .ok (blobLayout cfg) := by
  simp [BuildUsbDescriptors, buildUsbDescriptorsBody_ok, blobLayout_length, bind, Except.bind,
    pure, Except.pure]


/-! ## Decoding what was encoded -/

theorem lor_shiftLeft_of_lt (x y i : Nat) (h : x < 2 ^ i) : x ||| (y <<< i) = x + 2 ^ i * y := by
  rw [Nat.shiftLeft_eq, Nat.lor_comm, Nat.mul_comm, ← Nat.mul_add_lt_is_or h, Nat.add_comm]

theorem uint16le_eq (b0 b1 : Nat) (rest : List Nat) (h : b0 < 256) :
    uint16le (b0 :: b1 :: rest) = b0 + 256 * b1 := by
  simp only [uint16le, List.getD_cons_zero, List.getD_cons_succ]
  exact lor_shiftLeft_of_lt b0 b1 8 h

theorem uint32le_le32 (v : Nat) (post : List Nat) (h : v < 2 ^ 32) :
    uint32le (le32 v ++ post) = v := by
  simp only [uint32le, le32, List.cons_append, List.nil_append, List.getD_cons_zero,
    List.getD_cons_succ, Nat.shiftRight_eq_div_pow]
  rw [lor_shiftLeft_of_lt _ _ 8 (by omega), lor_shiftLeft_of_lt _ _ 16 (by omega),
    lor_shiftLeft_of_lt _ _ 24 (by omega)]
  omega

theorem Uint32_le32 (v : Nat) (post : List Nat) (h : v < 2 ^ 32) :
    Uint32 (le32 v ++ post) = .ok v := by
  have hb : boundsCheck (le32 v ++ post) 3 = .ok () :=
    boundsCheck_ok (by simp [le32])
  simp only [Uint32, bind, Except.bind, hb, uint32le_le32 v post h]
  rfl

theorem blobLength_le (cfg : Config) : blobLength cfg ≤ 93 := by
  rcases cfg with ⟨_ | fs, _ | hs, _ | ss⟩ <;>
    simp [blobLength, presentCount, lenIfPresent, descriptors_Len]

theorem blobLayout_drop_four (cfg : Config) :
    (blobLayout cfg).drop 4 = le32 (blobLength cfg % 2 ^ 32) ++ (le32 (headerFlags cfg)
      ++ ((List.replicate (presentCount cfg) (le32 3)).flatten
      ++ (serializedIfPresent cfg.fsDescriptors ++ (serializedIfPresent cfg.hsDescriptor
      ++ serializedIfPresent cfg.ssDescriptor)))) := by
  simp only [blobLayout, List.append_assoc]
  exact List.drop_left' rfl

theorem blobLayout_drop_eight (cfg : Config) :
    (blobLayout cfg).drop 8 = le32 (headerFlags cfg)
      ++ ((List.replicate (presentCount cfg) (le32 3)).flatten
      ++ (serializedIfPresent cfg.fsDescriptors ++ (serializedIfPresent cfg.hsDescriptor
      ++ serializedIfPresent cfg.ssDescriptor))) := by
  simp only [blobLayout, List.append_assoc]
  rw [← List.append_assoc (le32 functionfsDescriptorsMagicV2)]
  exact List.drop_left' rfl

theorem blobLayout_drop_twelve (cfg : Config) :
    (blobLayout cfg).drop 12 = (List.replicate (presentCount cfg) (le32 3)).flatten
      ++ (serializedIfPresent cfg.fsDescriptors ++ (serializedIfPresent cfg.hsDescriptor
      ++ serializedIfPresent cfg.ssDescriptor)) :=
  List.drop_left' rfl

theorem counts_length (k : Nat) : (List.replicate k (le32 3)).flatten.length = 4 * k := by
  simp only [List.length_flatten, List.map_replicate, List.sum_replicate, le32,
    List.length_cons, List.length_nil, smul_eq_mul]
  omega

theorem headerFlags_eq (cfg : Config) :
    headerFlags cfg = cfg.fsDescriptors.isSome.toNat + 2 * cfg.hsDescriptor.isSome.toNat
      + 4 * cfg.ssDescriptor.isSome.toNat := by
  rcases cfg with ⟨_ | fs, _ | hs, _ | ss⟩ <;>
    simp [headerFlags, functionfsHasFsDesc, functionfsHasHsDesc, functionfsHasSsDesc]

theorem headerFlags_lt (cfg : Config) : headerFlags cfg < 8 := by
  rw [headerFlags_eq]
  generalize cfg.fsDescriptors.isSome = a
  generalize cfg.hsDescriptor.isSome = b
  generalize cfg.ssDescriptor.isSome = c
  revert a b c
  decide

theorem headerFlags_bits (cfg : Config) :
    (headerFlags cfg).testBit 0 = cfg.fsDescriptors.isSome ∧
    (headerFlags cfg).testBit 1 = cfg.hsDescriptor.isSome ∧
    (headerFlags cfg).testBit 2 = cfg.ssDescriptor.isSome := by
  rw [headerFlags_eq]
  generalize cfg.fsDescriptors.isSome = a
  generalize cfg.hsDescriptor.isSome = b
  generalize cfg.ssDescriptor.isSome = c
  revert a b c
  decide

/-! ## Claims about the descriptor encoder -/

/-- C1: for every configuration of the three speed variants the blob `BuildUsbDescriptors`
returns starts with the little-endian u32 3 (the V2 magic) and carries at bytes 4..7 the
little-endian u32 equal to its own length; for the shipped configuration the length is 66. -/
theorem BuildUsbDescriptors_magic_and_length :
    (∀ cfg : Config, ∃ res, BuildUsbDescriptors cfg = .ok res ∧
      Uint32 res = .ok 3 ∧ Uint32 (res.drop 4) = .ok res.length) ∧
    (∃ res, BuildUsbDescriptors shippedConfig = .ok res ∧ res.length = 66) := by
  refine ⟨fun cfg => ⟨blobLayout cfg, BuildUsbDescriptors_ok cfg, ?_, ?_⟩,
    ⟨blobLayout shippedConfig, BuildUsbDescriptors_ok _, ?_⟩⟩
  · simp only [blobLayout, List.append_assoc]
    exact Uint32_le32 3 _ (by decide)
  · have hle := blobLength_le cfg
    rw [blobLayout_drop_four, blobLayout_length, Nat.mod_eq_of_lt (by omega)]
    exact Uint32_le32 _ _ (by omega)
  · rw [blobLayout_length]; rfl

/-- C2: for the shipped configuration `BuildUsbDescriptors` returns the 12-byte header
(magic 3, length 66, flags 3), two count words 3, then the full-speed set and the
high-speed set, each an interface descriptor, the sink endpoint and the source endpoint,
with max packet size 64 (full speed) and 512 (high speed); nothing for super speed. -/
theorem BuildUsbDescriptors_shipped :
    BuildUsbDescriptors shippedConfig = .ok
      ([3, 0, 0, 0, 66, 0, 0, 0, 3, 0, 0, 0]
        ++ [3, 0, 0, 0] ++ [3, 0, 0, 0]
        ++ ([9, 4, 0, 0, 2, 0xFF, 42, 1, 1] ++ [7, 5, 0x82, 2, 64 % 256, 64 / 256, 0]
            ++ [7, 5, 0x01, 2, 64 % 256, 64 / 256, 0])
        ++ ([9, 4, 0, 0, 2, 0xFF, 42, 1, 1] ++ [7, 5, 0x82, 2, 512 % 256, 512 / 256, 0]
            ++ [7, 5, 0x01, 2, 512 % 256, 512 / 256, 0])) := by
  rfl

/-- C3: for every configuration the blob has length 12 + 4*k + the sum of `Len()` of the
present variants, k the number of present variants; the running write offset after the
last `Marshal` equals that length, so the check before `return res` passes and the panic
"inconsistent ffs descriptors" is not raised. -/
theorem BuildUsbDescriptors_offset_consistent (cfg : Config) :
    ∃ res, buildUsbDescriptorsBody cfg = .ok (res, res.length) ∧
      res.length = 12 + 4 * presentCount cfg + (lenIfPresent cfg.fsDescriptors
        + lenIfPresent cfg.hsDescriptor + lenIfPresent cfg.ssDescriptor) ∧
      BuildUsbDescriptors cfg = .ok res ∧
      BuildUsbDescriptors cfg ≠ .error .inconsistentFfsDescriptors := by
  refine ⟨blobLayout cfg, ?_, ?_, BuildUsbDescriptors_ok cfg, ?_⟩
  · rw [blobLayout_length]; exact buildUsbDescriptorsBody_ok cfg
  · rw [blobLayout_length, blobLength]; omega
  · rw [BuildUsbDescriptors_ok]; intro h; cases h

/-- C4: for every configuration the flags word at bytes 8..11 has bit 0 set iff the
full-speed variant is present, bit 1 iff the high-speed variant is, bit 2 iff the
super-speed variant is, and no other bit; after the 12-byte header come exactly as many
count words (each the u32 3) as there are set flag bits, and right after them the
descriptor bytes of the present variants. For the shipped configuration the word is 3. -/
theorem BuildUsbDescriptors_flags :
    (∀ cfg : Config, ∃ res flags, BuildUsbDescriptors cfg = .ok res ∧
      Uint32 (res.drop 8) = .ok flags ∧
      flags.testBit 0 = cfg.fsDescriptors.isSome ∧
      flags.testBit 1 = cfg.hsDescriptor.isSome ∧
      flags.testBit 2 = cfg.ssDescriptor.isSome ∧
      (∀ i, 3 ≤ i → flags.testBit i = false) ∧
      (res.drop 12).take
          (4 * ((flags.testBit 0).toNat + (flags.testBit 1).toNat + (flags.testBit 2).toNat))
        = (List.replicate
            ((flags.testBit 0).toNat + (flags.testBit 1).toNat + (flags.testBit 2).toNat)
            [3, 0, 0, 0]).flatten ∧
      res.drop
          (12 + 4 * ((flags.testBit 0).toNat + (flags.testBit 1).toNat + (flags.testBit 2).toNat))
        = serializedIfPresent cfg.fsDescriptors ++ (serializedIfPresent cfg.hsDescriptor
            ++ serializedIfPresent cfg.ssDescriptor)) ∧
    (∃ res, BuildUsbDescriptors shippedConfig = .ok res ∧ Uint32 (res.drop 8) = .ok 3) := by
  refine ⟨fun cfg => ⟨blobLayout cfg, headerFlags cfg, BuildUsbDescriptors_ok cfg, ?_,
    (headerFlags_bits cfg).1, (headerFlags_bits cfg).2.1, (headerFlags_bits cfg).2.2, ?_, ?_, ?_⟩,
    ⟨blobLayout shippedConfig, BuildUsbDescriptors_ok _, ?_⟩⟩
  · rw [blobLayout_drop_eight]
    exact Uint32_le32 _ _ (by have := headerFlags_lt cfg; omega)
  · intro i hi
    apply Nat.testBit_lt_two_pow
    calc headerFlags cfg < 8 := headerFlags_lt cfg
      _ = 2 ^ 3 := rfl
      _ ≤ 2 ^ i := Nat.pow_le_pow_right (by decide) hi
  · have hk : (headerFlags cfg).testBit 0 = cfg.fsDescriptors.isSome ∧ _ := headerFlags_bits cfg
    rw [hk.1, hk.2.1, hk.2.2, blobLayout_drop_twelve]
    exact List.take_left' (counts_length _)
  · have hk := headerFlags_bits cfg
    rw [hk.1, hk.2.1, hk.2.2, ← List.drop_drop, blobLayout_drop_twelve]
    exact List.drop_left' (counts_length _)
  · rw [blobLayout_drop_eight]
    exact Uint32_le32 _ _ (by decide)

/-- C5: `BuildUsbStrings` returns the 16-byte header (magic 2, total length 45, string
count 1, language count 1), the bytes 0x09 0x04 of the language code, the bytes of the
interface name and one 0 byte; the length field equals the byte count of the blob, 45, and
the last byte is 0. -/
theorem BuildUsbStrings_layout :
    BuildUsbStrings = .ok
      ([2, 0, 0, 0, 45, 0, 0, 0, 1, 0, 0, 0, 1, 0, 0, 0] ++ [0x09, 0x04]
        ++ utf8Bytes "balena Device Bridge (BDB)" ++ [0]) ∧
    utf8Bytes "balena Device Bridge (BDB)"
      = [98, 97, 108, 101, 110, 97, 32, 68, 101, 118, 105, 99, 101, 32, 66, 114, 105, 100, 103,
         101, 32, 40, 66, 68, 66, 41] ∧
    ∃ res, BuildUsbStrings = .ok res ∧ res.length = 45 ∧ Uint32 res = .ok 2 ∧
      Uint32 (res.drop 4) = .ok res.length ∧ res.getLast? = some 0 :=
  ⟨rfl, rfl, _, rfl, rfl, rfl, rfl, rfl⟩


/-! ## The event codec -/

theorem Read_cons (data : List Nat) (step : ReadStep) (rest : List ReadStep) (len : Nat) :
    Reader.Read { data := data, script := step :: rest } len =
      { bytes := data.take (min step.n len), err := step.err,
        reader := { data := data.drop (data.take (min step.n len)).length, script := rest } } :=
  rfl

theorem storeAt_append (filled pad bytes : List Nat) (h : bytes.length ≤ pad.length) :
    storeAt (filled ++ pad) filled.length bytes = (filled ++ bytes) ++ pad.drop bytes.length := by
  have h1 : min pad.length bytes.length = bytes.length := by omega
  simp only [storeAt, List.take_left, List.drop_left, copy, h1, List.take_length,
    List.append_assoc]

/-- The loop of `ReadFfsEvent` on a reader whose next reads succeed and offer enough bytes:
it fills the rest of the buffer with the next `toRead` bytes of the stream. -/
theorem readEventLoop_ok (pre post : List ReadStep) (data : List Nat) (toRead : Nat)
    (filled pad : List Nat)
    (hok : ∀ s ∈ pre, s.err = none ∧ 1 ≤ s.n)
    (hsum : toRead ≤ (pre.map (·.n)).sum) (hdata : toRead ≤ data.length)
    (hpad : pad.length = toRead) :
    ∃ k, k ≤ pre.length ∧ k ≤ toRead ∧
      readEventLoop (pre ++ post) data toRead (filled ++ pad)
        = (.ok (filled ++ data.take toRead),
            { data := data.drop toRead, script := (pre ++ post).drop k }) := by
  induction pre generalizing data toRead filled pad with
  | nil =>
    have h0 : toRead = 0 := by simpa using hsum
    subst h0
    have hp : pad = [] := List.eq_nil_of_length_eq_zero hpad
    exact ⟨0, Nat.le_refl _, Nat.le_refl _, by simp [readEventLoop, hp]⟩
  | cons s pre ih =>
    cases toRead with
    | zero =>
      have hp : pad = [] := List.eq_nil_of_length_eq_zero hpad
      exact ⟨0, Nat.zero_le _, Nat.le_refl _, by simp [readEventLoop, hp]⟩
    | succ t =>
      have hs := hok s (List.mem_cons_self _ _)
      have hlen : (data.take (min s.n (t + 1))).length = min s.n (t + 1) := by
        rw [List.length_take]; omega
      have hsum' : t + 1 - min s.n (t + 1) ≤ (pre.map (·.n)).sum := by
        simp only [List.map_cons, List.sum_cons] at hsum; omega
      obtain ⟨k, hk1, hk2, hk⟩ := ih (data.drop (min s.n (t + 1))) (t + 1 - min s.n (t + 1))
        (filled ++ data.take (min s.n (t + 1))) (pad.drop (min s.n (t + 1)))
        (fun x hx => hok x (List.mem_cons_of_mem _ hx)) hsum'
        (by rw [List.length_drop]; omega) (by rw [List.length_drop]; omega)
      refine ⟨k + 1, by simp only [List.length_cons]; omega, by omega, ?_⟩
      have hoff : (filled ++ pad).length - (t + 1) = filled.length := by
        rw [List.length_append]; omega
      have hstore := storeAt_append filled pad (data.take (min s.n (t + 1)))
        (by rw [hlen]; omega)
      rw [hlen] at hstore
      have e1 : min s.n (t + 1) + (t + 1 - min s.n (t + 1)) = t + 1 := by omega
      simp only [List.cons_append, readEventLoop, Read_cons, hs.1, hlen, hoff, hstore,
        List.drop_succ_cons, List.append_eq]
      rw [hk, List.append_assoc, ← List.take_add, List.drop_drop, e1]

/-- The loop of `ReadFfsEvent` returns the first error a read reports while the record is
incomplete, including `io.EOF` from a reader that has run out. -/
theorem readEventLoop_error (pre : List ReadStep) (tail : List ReadStep) (data : List Nat)
    (toRead : Nat) (buf : List Nat) (e : IOError)
    (hok : ∀ s ∈ pre, s.err = none)
    (hshort : min (pre.map (·.n)).sum data.length < toRead)
    (htail : tail = [] ∧ e = .EOF ∨ ∃ step post, tail = step :: post ∧ step.err = some e) :
    (readEventLoop (pre ++ tail) data toRead buf).1 = .error e := by
  induction pre generalizing data toRead buf with
  | nil =>
    cases toRead with
    | zero => omega
    | succ t =>
      rcases htail with ⟨rfl, rfl⟩ | ⟨step, post, rfl, he⟩
      · rfl
      · simp [readEventLoop, Read_cons, he]
  | cons s pre ih =>
    cases toRead with
    | zero => omega
    | succ t =>
      have hs := hok s (List.mem_cons_self _ _)
      simp only [List.cons_append, readEventLoop, Read_cons, hs]
      apply ih _ _ _ (fun x hx => hok x (List.mem_cons_of_mem _ hx))
      simp only [List.map_cons, List.sum_cons] at hshort
      simp only [List.length_take, List.length_drop]
      omega

/-- When the loop of `ReadFfsEvent` returns a buffer, every read it made was free of
errors. -/
theorem readEventLoop_ok_only_if (script : List ReadStep) (data : List Nat) (toRead : Nat)
    (buf b : List Nat) (r : Reader)
    (h : readEventLoop script data toRead buf = (.ok b, r)) :
    ∃ used, script = used ++ r.script ∧ ∀ s ∈ used, s.err = none := by
  induction script generalizing data toRead buf with
  | nil =>
    cases toRead with
    | zero =>
      simp only [readEventLoop, Prod.mk.injEq] at h
      exact ⟨[], by rw [← h.2]; rfl, by simp⟩
    | succ t => simp [readEventLoop] at h
  | cons s script ih =>
    cases toRead with
    | zero =>
      simp only [readEventLoop, Prod.mk.injEq] at h
      exact ⟨[], by rw [← h.2]; rfl, by simp⟩
    | succ t =>
      simp only [readEventLoop, Read_cons] at h
      cases hs : s.err with
      | some e => simp [hs] at h
      | none =>
        simp only [hs] at h
        obtain ⟨used, hu, hall⟩ := ih _ _ _ h
        refine ⟨s :: used, by rw [List.cons_append, ← hu], ?_⟩
        intro x hx
        rcases List.mem_cons.1 hx with rfl | hx
        · exact hs
        · exact hall x hx

theorem ReadFfsEvent_ok (pre post : List ReadStep) (data : List Nat)
    (hok : ∀ s ∈ pre, s.err = none ∧ 1 ≤ s.n)
    (hsum : 12 ≤ (pre.map (·.n)).sum) (hdata : 12 ≤ data.length) :
    ∃ k, k ≤ pre.length ∧ k ≤ 12 ∧
      ReadFfsEvent { data := data, script := pre ++ post }
        = (.ok (eventOfBuffer (data.take 12)),
            { data := data.drop 12, script := (pre ++ post).drop k }) := by
  obtain ⟨k, hk1, hk2, hk⟩ := readEventLoop_ok pre post data 12 [] (makeBytes 12) hok hsum hdata
    (by simp [makeBytes])
  refine ⟨k, hk1, hk2, ?_⟩
  simp only [List.nil_append] at hk
  simp only [ReadFfsEvent, hk]
  rfl


theorem length_le_sum_n (l : List ReadStep) (h : ∀ s ∈ l, s.err = none ∧ 1 ≤ s.n) :
    l.length ≤ (l.map (·.n)).sum := by
  induction l with
  | nil => simp
  | cons s l ih =>
    have hs := (h s (List.mem_cons_self _ _)).2
    have := ih fun x hx => h x (List.mem_cons_of_mem _ hx)
    simp only [List.length_cons, List.map_cons, List.sum_cons]
    omega

/-- C6: a 12-byte record `b0 … b11` delivered by the stream (in successful reads, however
split) makes `ReadFfsEvent` return the event with RequestType = b0, Request = b1,
Value = b2 + 256*b3, Index = b4 + 256*b5, Length = b6 + 256*b7, Type = b8; the padding bytes
b9..b11 do not enter the result. The record 80 06 00 01 00 00 4A 00 04 00 00 00 decodes to
Type 4, RequestType 0x80, Request 6, Value 0x0100, Index 0, Length 0x4A. -/
theorem ReadFfsEvent_decodes (b0 b1 b2 b3 b4 b5 b6 b7 b8 b9 b10 b11 : Nat) (more : List Nat)
    (pre post : List ReadStep)
    (hbytes : ∀ x ∈ [b0, b1, b2, b3, b4, b5, b6, b7, b8, b9, b10, b11], x < 256)
    (hok : ∀ s ∈ pre, s.err = none ∧ 1 ≤ s.n) (hsum : 12 ≤ (pre.map (·.n)).sum) :
    (ReadFfsEvent { data := [b0, b1, b2, b3, b4, b5, b6, b7, b8, b9, b10, b11] ++ more,
                    script := pre ++ post }).1
      = .ok { Type_ := b8
              SetupPayload := { RequestType := b0, Request := b1, Value := b2 + 256 * b3,
                                Index := b4 + 256 * b5, Length := b6 + 256 * b7 } } ∧
    (∀ c9 c10 c11 : Nat,
      (ReadFfsEvent { data := [b0, b1, b2, b3, b4, b5, b6, b7, b8, c9, c10, c11] ++ more,
                      script := pre ++ post }).1
        = (ReadFfsEvent { data := [b0, b1, b2, b3, b4, b5, b6, b7, b8, b9, b10, b11] ++ more,
                          script := pre ++ post }).1) ∧
    (ReadFfsEvent (Reader.ofBytes
        [0x80, 0x06, 0x00, 0x01, 0x00, 0x00, 0x4A, 0x00, 0x04, 0, 0, 0] 1)).1
      = .ok { Type_ := FunctionfsSetup
              SetupPayload := { RequestType := 0x80, Request := 0x06, Value := 0x0100,
                                Index := 0x0000, Length := 0x004A } } := by
  have key : ∀ c9 c10 c11 : Nat,
      (ReadFfsEvent { data := [b0, b1, b2, b3, b4, b5, b6, b7, b8, c9, c10, c11] ++ more,
                      script := pre ++ post }).1
        = .ok { Type_ := b8
                SetupPayload := { RequestType := b0, Request := b1, Value := b2 + 256 * b3,
                                  Index := b4 + 256 * b5, Length := b6 + 256 * b7 } } := by
    intro c9 c10 c11
    obtain ⟨k, -, -, hk⟩ := ReadFfsEvent_ok pre post
      ([b0, b1, b2, b3, b4, b5, b6, b7, b8, c9, c10, c11] ++ more) hok hsum
      (by simp only [List.length_append, List.length_cons]; omega)
    rw [hk]
    have h2 : b2 < 256 := hbytes b2 (by simp)
    have h4 : b4 < 256 := hbytes b4 (by simp)
    have h6 : b6 < 256 := hbytes b6 (by simp)
    have e2 := uint16le_eq b2 b3 [b4, b5, b6, b7, b8, c9, c10, c11] h2
    have e4 := uint16le_eq b4 b5 [b6, b7, b8, c9, c10, c11] h4
    have e6 := uint16le_eq b6 b7 [b8, c9, c10, c11] h6
    show Except.ok (eventOfBuffer [b0, b1, b2, b3, b4, b5, b6, b7, b8, c9, c10, c11]) = _
    simp only [eventOfBuffer, List.getD_cons_zero, List.getD_cons_succ, List.drop_succ_cons,
      List.drop_zero, e2, e4, e6]
  exact ⟨key b9 b10 b11, fun c9 c10 c11 => (key c9 c10 c11).trans (key b9 b10 b11).symm, rfl⟩

theorem ReadFfsEvent_decodes_witness :
    (ReadFfsEvent { data := [0x80, 0x06, 0x00, 0x01, 0x00, 0x00, 0x4A, 0x00, 0x04, 7, 8, 9]
                      ++ [1, 2, 3],
                    script := [{ n := 5 }, { n := 100 }] ++ [{ n := 1 }] }).1
      = .ok { Type_ := 4
              SetupPayload := { RequestType := 0x80, Request := 0x06, Value := 0 + 256 * 1,
                                Index := 0 + 256 * 0, Length := 0x4A + 256 * 0 } } :=
  (ReadFfsEvent_decodes 0x80 0x06 0x00 0x01 0x00 0x00 0x4A 0x00 0x04 7 8 9 [1, 2, 3]
    [{ n := 5 }, { n := 100 }] [{ n := 1 }] (by decide) (by decide) (by decide)).1

/-- C7: `ReadFfsEvent` tolerates short reads. For a stream of at least 12 bytes whose next
reads succeed with at least one byte each and offer at least 12 bytes in total, however
they split the bytes, `ReadFfsEvent` returns the event it returns when the 12 bytes come in
a single read, consumes exactly the first 12 bytes and leaves the rest of the stream and
the reads it did not need; with 24 bytes and enough reads, a second call on the reader
left behind returns the event of bytes 12..23 and leaves the stream after byte 24. -/
theorem ReadFfsEvent_short_reads (data : List Nat) (pre post : List ReadStep)
    (hdata : 12 ≤ data.length)
    (hok : ∀ s ∈ pre, s.err = none ∧ 1 ≤ s.n) (hsum : 12 ≤ (pre.map (·.n)).sum) :
    ∃ k, k ≤ pre.length ∧ k ≤ 12 ∧
      ReadFfsEvent { data := data, script := pre ++ post }
        = ((ReadFfsEvent { data := data, script := [{ n := 12 }] }).1,
            { data := data.drop 12, script := (pre ++ post).drop k }) ∧
      (ReadFfsEvent { data := data, script := [{ n := 12 }] }).1
        = .ok (eventOfBuffer (data.take 12)) ∧
      (24 ≤ data.length → 24 ≤ pre.length →
        ∃ k2, ReadFfsEvent { data := data.drop 12, script := (pre ++ post).drop k }
          = (.ok (eventOfBuffer ((data.drop 12).take 12)),
              { data := data.drop 24, script := (pre ++ post).drop k2 })) := by
  obtain ⟨k, hk1, hk2, hk⟩ := ReadFfsEvent_ok pre post data hok hsum hdata
  obtain ⟨k1, -, -, hone⟩ := ReadFfsEvent_ok [{ n := 12 }] [] data (by simp) (by simp) hdata
  have hone1 : (ReadFfsEvent { data := data, script := [{ n := 12 }] }).1
      = .ok (eventOfBuffer (data.take 12)) := by
    simp only [List.append_nil] at hone
    rw [hone]
  refine ⟨k, hk1, hk2, by rw [hk, hone1], hone1, ?_⟩
  intro hd24 hp24
  have hdrop : (pre ++ post).drop k = pre.drop k ++ post := List.drop_append_of_le_length hk1
  have hok2 : ∀ s ∈ pre.drop k, s.err = none ∧ 1 ≤ s.n :=
    fun s hs => hok s (List.mem_of_mem_drop hs)
  have hlen2 := length_le_sum_n (pre.drop k) hok2
  rw [List.length_drop] at hlen2
  obtain ⟨k2, hk21, -, hk2'⟩ := ReadFfsEvent_ok (pre.drop k) post (data.drop 12) hok2
    (by omega) (by rw [List.length_drop]; omega)
  refine ⟨k + k2, ?_⟩
  rw [hdrop, hk2', List.drop_drop, ← hdrop, List.drop_drop]

theorem ReadFfsEvent_short_reads_witness :
    ∃ k, k ≤ [({ n := 5 } : ReadStep), { n := 3 }, { n := 100 }].length ∧ k ≤ 12 ∧
      ReadFfsEvent { data := eventRecord 2 ++ [9, 9],
                     script := [{ n := 5 }, { n := 3 }, { n := 100 }] ++ [{ n := 1 }] }
        = ((ReadFfsEvent { data := eventRecord 2 ++ [9, 9], script := [{ n := 12 }] }).1,
            { data := (eventRecord 2 ++ [9, 9]).drop 12,
              script := (([{ n := 5 }, { n := 3 }, { n := 100 }] : List ReadStep)
                ++ [({ n := 1 } : ReadStep)]).drop k }) := by
  obtain ⟨k, h1, h2, h3, -⟩ := ReadFfsEvent_short_reads (eventRecord 2 ++ [9, 9])
    [{ n := 5 }, { n := 3 }, { n := 100 }] [{ n := 1 }] (by decide) (by decide) (by decide)
  exact ⟨k, h1, h2, h3⟩

/-- C8: `ReadFfsEvent` propagates stream errors. If the reads before some read are free of
errors but leave the 12-byte record incomplete, and that read reports an error, then
`ReadFfsEvent` returns that error and no event; a reader that runs out before the record is
complete yields `io.EOF`. Conversely, when `ReadFfsEvent` returns an event, every read it
made was free of errors. -/
theorem ReadFfsEvent_error_propagates (data : List Nat) (pre post : List ReadStep)
    (step : ReadStep) (e : IOError)
    (hok : ∀ s ∈ pre, s.err = none)
    (hshort : min (pre.map (·.n)).sum data.length < 12)
    (herr : step.err = some e) :
    (ReadFfsEvent { data := data, script := pre ++ step :: post }).1 = .error e ∧
    (ReadFfsEvent { data := data, script := pre }).1 = .error .EOF ∧
    (∀ (r r' : Reader) (ev : FfsEvent), ReadFfsEvent r = (.ok ev, r') →
      ∃ used, r.script = used ++ r'.script ∧ ∀ s ∈ used, s.err = none) := by
  refine ⟨?_, ?_, ?_⟩
  · have h := readEventLoop_error pre (step :: post) data 12 (makeBytes 12) e hok hshort
      (Or.inr ⟨step, post, rfl, herr⟩)
    simp only [ReadFfsEvent, h]
    rfl
  · have h := readEventLoop_error pre [] data 12 (makeBytes 12) .EOF hok hshort
      (Or.inl ⟨rfl, rfl⟩)
    rw [List.append_nil] at h
    simp only [ReadFfsEvent, h]
    rfl
  · intro r r' ev h
    simp only [ReadFfsEvent, Prod.mk.injEq] at h
    cases hres : readEventLoop r.script r.data 12 (makeBytes 12) with
    | mk res rd =>
      rw [hres] at h
      cases res with
      | error err => simp [Except.map] at h
      | ok b =>
        obtain ⟨used, hu, hall⟩ := readEventLoop_ok_only_if _ _ _ _ _ _ hres
        exact ⟨used, by rw [← h.2]; exact hu, hall⟩

theorem ReadFfsEvent_error_propagates_witness :
    (ReadFfsEvent { data := eventRecord 2,
                    script := ([{ n := 5 }, { n := 3 }] : List ReadStep)
                      ++ ({ n := 4, err := some (.other 5) } : ReadStep) :: [{ n := 12 }] }).1
      = .error (.other 5) :=
  (ReadFfsEvent_error_propagates (eventRecord 2) [{ n := 5 }, { n := 3 }] [{ n := 12 }]
    { n := 4, err := some (.other 5) } (.other 5) (by decide) (by decide) rfl).1


/-! ## The control loop -/

theorem readEventLoop_script_le (script : List ReadStep) (data : List Nat) (toRead : Nat)
    (buf : List Nat) :
    (readEventLoop script data toRead buf).2.script.length ≤ script.length := by
  induction script generalizing data toRead buf with
  | nil => cases toRead <;> simp [readEventLoop, Reader.Read]
  | cons s script ih =>
    cases toRead with
    | zero => simp [readEventLoop]
    | succ t =>
      simp only [readEventLoop, Read_cons]
      cases hs : s.err with
      | some e => simp
      | none =>
        simp only [List.length_cons]
        exact Nat.le_succ_of_le (ih _ _ _)

theorem readEventLoop_script_lt (script : List ReadStep) (data : List Nat) (t : Nat)
    (buf b : List Nat) (r : Reader)
    (h : readEventLoop script data (t + 1) buf = (.ok b, r)) :
    r.script.length < script.length := by
  cases script with
  | nil => simp [readEventLoop] at h
  | cons s script =>
    simp only [readEventLoop, Read_cons] at h
    cases hs : s.err with
    | some e => simp [hs] at h
    | none =>
      simp only [hs] at h
      have := readEventLoop_script_le script
        (data.drop (data.take (min s.n (t + 1))).length)
        (t + 1 - (data.take (min s.n (t + 1))).length)
        (storeAt buf (buf.length - (t + 1)) (data.take (min s.n (t + 1))))
      rw [h] at this
      have this' : r.script.length ≤ script.length := this
      simp only [List.length_cons]
      omega

theorem ReadFfsEvent_script_lt (input r : Reader) (ev : FfsEvent)
    (h : ReadFfsEvent input = (.ok ev, r)) : r.script.length < input.script.length := by
  simp only [ReadFfsEvent, Prod.mk.injEq] at h
  cases hres : readEventLoop input.script input.data 12 (makeBytes 12) with
  | mk res rd =>
    rw [hres] at h
    cases res with
    | error err => simp [Except.map] at h
    | ok b =>
      rw [← h.2]
      exact readEventLoop_script_lt _ _ _ _ _ _ hres

theorem readAllLimited_script_le (spare : Nat → Nat) (script : List ReadStep) (data : List Nat)
    (n : Nat) (b : List Nat) :
    (readAllLimited spare script data n b).2.script.length ≤ script.length := by
  induction script generalizing data n b with
  | nil => simp [readAllLimited]
  | cons s script ih =>
    simp only [readAllLimited, limitedRead]
    by_cases hn : n = 0
    · simp [hn]
    · simp only [hn, if_false, Read_cons]
      cases hs : s.err with
      | some e => cases e <;> simp
      | none =>
        simp only [List.length_cons]
        exact Nat.le_succ_of_le (ih _ _ _)

theorem handleEvent_script_le (spare : Nat → Nat) (ev : FfsEvent) (m : Machine) :
    (handleEvent spare ev m).machine.control.script.length ≤ m.control.script.length := by
  unfold handleEvent
  split_ifs <;>
    first
    | exact Nat.le_refl _
    | exact readAllLimited_script_le spare _ _ _ _

theorem iteration_running_script_lt (spare : Nat → Nat) (m m' : Machine)
    (h : iteration spare m = .running m') :
    m'.control.script.length < m.control.script.length := by
  unfold iteration at h
  cases hr : ReadFfsEvent m.control with
  | mk res control =>
    rw [hr] at h
    cases res with
    | error err => simp at h
    | ok ev =>
      simp only at h
      have h1 := ReadFfsEvent_script_lt _ _ _ hr
      have h2 := handleEvent_script_le spare ev { m with control := control }
      rw [h] at h2
      exact Nat.lt_of_le_of_lt h2 h1

/-- The loop of `controlLoop` ends, by `break` or by `log.Fatalf`, within as many passes as
the control reader has reads left, plus one. -/
theorem runLoop_terminates (spare : Nat → Nat) (fuel : Nat) (m : Machine)
    (h : m.control.script.length < fuel) : ∀ m', runLoop spare fuel m ≠ .running m' := by
  induction fuel generalizing m with
  | zero => omega
  | succ fuel ih =>
    intro m'
    simp only [runLoop]
    cases hi : iteration spare m with
    | running m1 =>
      have := iteration_running_script_lt spare m m1 hi
      exact ih m1 (by omega) m'
    | finished m1 => simp
    | fatal e m1 => simp

theorem handleEvent_working (spare : Nat → Nat) (ev : FfsEvent) (m : Machine) :
    (handleEvent spare ev m).machine.state.working = m.state.working ∧
    (handleEvent spare ev m).machine.stops = m.stops := by
  unfold handleEvent
  split_ifs <;> exact ⟨rfl, rfl⟩

theorem iteration_working (spare : Nat → Nat) (m : Machine) :
    (iteration spare m).machine.state.working = m.state.working ∧
    (iteration spare m).machine.stops = m.stops := by
  unfold iteration
  cases hr : ReadFfsEvent m.control with
  | mk res control =>
    cases res with
    | error err => exact ⟨rfl, rfl⟩
    | ok ev => exact handleEvent_working spare ev { m with control := control }

theorem runLoop_working (spare : Nat → Nat) (fuel : Nat) (m : Machine) :
    (runLoop spare fuel m).machine.state.working = m.state.working ∧
    (runLoop spare fuel m).machine.stops = m.stops := by
  induction fuel generalizing m with
  | zero => exact ⟨rfl, rfl⟩
  | succ fuel ih =>
    have hi := iteration_working spare m
    simp only [runLoop]
    cases hit : iteration spare m with
    | running m1 =>
      rw [hit] at hi
      simp only [Outcome.machine] at hi
      rw [← hi.1, ← hi.2]
      exact ih m1
    | finished m1 => rw [hit] at hi; exact hi
    | fatal e m1 => rw [hit] at hi; exact hi

theorem controlLoop_never_stops (spare : Nat → Nat) (fuel : Nat) (control : Reader) :
    (controlLoop spare fuel control).machine.state.working = false ∧
    (controlLoop spare fuel control).machine.stops = 0 := by
  have h := runLoop_working spare fuel (Machine.initial control)
  unfold controlLoop
  cases hr : runLoop spare fuel (Machine.initial control) with
  | running m => rw [hr] at h; exact h
  | fatal e m => rw [hr] at h; exact h
  | finished m =>
    rw [hr] at h
    simp only [Outcome.machine] at h
    have hw : m.state.working = false := h.1
    simp only [Outcome.machine, afterLoop, hw]
    exact ⟨hw, h.2⟩


theorem handleEvent_running_inv (spare : Nat → Nat) (ev : FfsEvent) (m m' : Machine)
    (hinv : m.state.enabled = true → m.state.bound = true)
    (h : handleEvent spare ev m = .running m') :
    m'.state.enabled = true → m'.state.bound = true := by
  unfold handleEvent at h
  split_ifs at h <;> simp only [Outcome.running.injEq, reduceCtorEq] at h <;> subst h <;>
    simp_all

theorem handleEvent_finished_inv (spare : Nat → Nat) (ev : FfsEvent) (m m' : Machine)
    (hinv : m.state.enabled = true → m.state.bound = true)
    (h : handleEvent spare ev m = .finished m') :
    m'.state.enabled = true → m'.state.bound = true ∨
      (ev.Type_ = FunctionfsUnbind ∧ m.state.bound = true ∧ m.state.enabled = true) := by
  unfold handleEvent at h
  split_ifs at h <;> simp only [Outcome.finished.injEq, reduceCtorEq] at h <;> subst h <;>
    simp_all

theorem handleEvent_not_fatal (spare : Nat → Nat) (ev : FfsEvent) (m m' : Machine)
    (e : IOError) : handleEvent spare ev m ≠ .fatal e m' := by
  unfold handleEvent
  split_ifs <;> simp

/-- Invariant of the loop of `controlLoop`, started in a state where `enabled` implies
`bound`: the implication holds whenever the loop reads an event; it holds when the loop is
left, unless the loop is left on an Unbind read in the Enabled state. -/
theorem runLoop_inv (spare : Nat → Nat) (fuel : Nat) (m : Machine)
    (hinv : m.state.enabled = true → m.state.bound = true) :
    (∀ m', runLoop spare fuel m = .running m' →
      (m'.state.enabled = true → m'.state.bound = true)) ∧
    (∀ e m', runLoop spare fuel m = .fatal e m' →
      (m'.state.enabled = true → m'.state.bound = true)) ∧
    (∀ m', runLoop spare fuel m = .finished m' →
      (m'.state.enabled = true → m'.state.bound = true ∨
        ∃ n m0 ev c, n < fuel ∧ runLoop spare n m = .running m0 ∧
          ReadFfsEvent m0.control = (.ok ev, c) ∧ ev.Type_ = FunctionfsUnbind ∧
          m0.state.bound = true ∧ m0.state.enabled = true)) := by
  induction fuel generalizing m with
  | zero =>
    refine ⟨?_, ?_, ?_⟩
    · intro m' h
      simp only [runLoop, Outcome.running.injEq] at h
      subst h; exact hinv
    · intro e m' h; simp [runLoop] at h
    · intro m' h; simp [runLoop] at h
  | succ fuel ih =>
    cases hr : ReadFfsEvent m.control with
    | mk res control =>
      cases res with
      | error err =>
        have hit : iteration spare m = .fatal err { m with control := control } := by
          simp only [iteration, hr]
        refine ⟨?_, ?_, ?_⟩
        · intro m' h; simp [runLoop, hit] at h
        · intro e m' h
          simp only [runLoop, hit, Outcome.fatal.injEq] at h
          rw [← h.2]; exact hinv
        · intro m' h; simp [runLoop, hit] at h
      | ok ev =>
        have hit : iteration spare m = handleEvent spare ev { m with control := control } := by
          simp only [iteration, hr]
        cases hh : handleEvent spare ev { m with control := control } with
        | running m1 =>
          have hinv1 := handleEvent_running_inv spare ev { m with control := control } m1 hinv hh
          have hrun : runLoop spare (fuel + 1) m = runLoop spare fuel m1 := by
            simp only [runLoop, hit, hh]
          obtain ⟨i1, i2, i3⟩ := ih m1 hinv1
          rw [hrun]
          refine ⟨i1, i2, ?_⟩
          intro m' h hen
          rcases i3 m' h hen with hb | ⟨n, m0, ev0, c, hn, hrn, hrd, ht, hb0, he0⟩
          · exact Or.inl hb
          · refine Or.inr ⟨n + 1, m0, ev0, c, by omega, ?_, hrd, ht, hb0, he0⟩
            simp only [runLoop, hit, hh]
            exact hrn
        | finished m1 =>
          have hrun : runLoop spare (fuel + 1) m = .finished m1 := by
            simp only [runLoop, hit, hh]
          rw [hrun]
          refine ⟨?_, ?_, ?_⟩
          · intro m' h; simp at h
          · intro e m' h; simp at h
          · intro m' h hen
            simp only [Outcome.finished.injEq] at h
            subst h
            rcases handleEvent_finished_inv spare ev { m with control := control } m1 hinv hh hen with hb | ⟨ht, hb0, he0⟩
            · exact Or.inl hb
            · exact Or.inr ⟨0, m, ev, control, by omega, rfl, hr, ht, hb0, he0⟩
        | fatal e m1 => exact absurd hh (handleEvent_not_fatal spare ev _ m1 e)

/-! ## Claims about the control loop -/

/-- C9, as stated, fails: after the events Bind, Enable, Unbind the loop is left in the
state bound = false, enabled = true, so `enabled` holds without `bound`. -/
theorem controlLoop_unbind_leaves_enabled :
    controlLoop (fun _ => 512) 3
        (Reader.ofBytes (eventRecord FunctionfsBind ++ eventRecord FunctionfsEnable
          ++ eventRecord FunctionfsUnbind) 3)
      = .finished { state := { bound := false, enabled := true, working := false }
                    control := { data := [], script := [] }
                    writes := [], started := 1, stops := 0 } ∧
    ¬ ∀ (spare : Nat → Nat) (fuel : Nat) (control : Reader),
        ((controlLoop spare fuel control).machine.state.working = true →
          (controlLoop spare fuel control).machine.state.enabled = true) ∧
        ((controlLoop spare fuel control).machine.state.enabled = true →
          (controlLoop spare fuel control).machine.state.bound = true) := by
  refine ⟨rfl, fun h => ?_⟩
  have h2 := (h (fun _ => 512) 3
    (Reader.ofBytes (eventRecord FunctionfsBind ++ eventRecord FunctionfsEnable
      ++ eventRecord FunctionfsUnbind) 3)).2
  exact absurd (h2 rfl) (by decide)

/-- C9, amended: in every state in which `controlLoop` is about to read an event, also the
one held when a read error ends the process, `working` holds only if `enabled` does and
`enabled` holds only if `bound` does; in the state held when the loop terminates `working`
holds only if `enabled` does, and `enabled` holds only if `bound` does unless the loop was
left on an Unbind event read in the Enabled state (bound and enabled both true). -/
theorem controlLoop_state_invariant (spare : Nat → Nat) (fuel : Nat) (control : Reader) :
    match controlLoop spare fuel control with
    | .running m =>
      (m.state.working = true → m.state.enabled = true) ∧
      (m.state.enabled = true → m.state.bound = true)
    | .fatal _ m =>
      (m.state.working = true → m.state.enabled = true) ∧
      (m.state.enabled = true → m.state.bound = true)
    | .finished m =>
      (m.state.working = true → m.state.enabled = true) ∧
      (m.state.enabled = true → m.state.bound = true ∨
        ∃ n m0 ev c, n < fuel ∧ controlLoop spare n control = .running m0 ∧
          ReadFfsEvent m0.control = (.ok ev, c) ∧ ev.Type_ = FunctionfsUnbind ∧
          m0.state.bound = true ∧ m0.state.enabled = true) := by
  have hw := (controlLoop_never_stops spare fuel control).1
  have hwe : ∀ st : GadgetState, st.working = false →
      (st.working = true → st.enabled = true) := by
    intro st h1 h2
    rw [h1] at h2
    cases h2
  obtain ⟨i1, i2, i3⟩ := runLoop_inv spare fuel (Machine.initial control)
    (by intro h; cases h)
  have hrunning : ∀ n m0, runLoop spare n (Machine.initial control) = .running m0 →
      controlLoop spare n control = .running m0 := by
    intro n m0 h
    simp only [controlLoop, h]
  unfold controlLoop at hw ⊢
  cases hr : runLoop spare fuel (Machine.initial control) with
  | running m =>
    rw [hr] at hw
    exact ⟨hwe m.state hw, i1 m hr⟩
  | fatal e m =>
    rw [hr] at hw
    exact ⟨hwe m.state hw, i2 e m hr⟩
  | finished m =>
    rw [hr] at hw
    refine ⟨hwe (afterLoop m).state hw, ?_⟩
    have hst : (afterLoop m).state = m.state := by
      unfold afterLoop; split_ifs <;> rfl
    show (afterLoop m).state.enabled = true → _
    rw [hst]
    intro hen
    rcases i3 m hr hen with hb | ⟨n, m0, ev, c, hn, hrn, hrest⟩
    · exact Or.inl hb
    · exact Or.inr ⟨n, m0, ev, c, hn, hrunning n m0 hrn, hrest⟩

/-- C10 evaluated on the code: on the events Bind, Enable, Disable `controlLoop` starts
the worker once and returns without sending on the worker-stop channel, `working` being
false; no run of `controlLoop` ever sets `working` or sends a stop signal. -/
theorem controlLoop_bind_enable_disable_no_stop :
    controlLoop (fun _ => 512) 3
        (Reader.ofBytes (eventRecord FunctionfsBind ++ eventRecord FunctionfsEnable
          ++ eventRecord FunctionfsDisable) 3)
      = .finished { state := { bound := true, enabled := false, working := false }
                    control := { data := [], script := [] }
                    writes := [], started := 1, stops := 0 } ∧
    ∀ (spare : Nat → Nat) (fuel : Nat) (control : Reader),
      (controlLoop spare fuel control).machine.state.working = false ∧
      (controlLoop spare fuel control).machine.stops = 0 :=
  ⟨rfl, controlLoop_never_stops⟩


/-! ## Transitions of the control loop -/

/-- One pass of the loop on a machine whose control endpoint delivers the event `ev`. -/
theorem iteration_of_read (spare : Nat → Nat) (m : Machine) (ev : FfsEvent) (c : Reader)
    (hread : ReadFfsEvent m.control = (.ok ev, c)) :
    iteration spare m = handleEvent spare ev { m with control := c } := by
  simp only [iteration, hread]

theorem runLoop_of_finished (spare : Nat → Nat) (fuel : Nat) (m m' : Machine)
    (h : iteration spare m = .finished m') : runLoop spare (fuel + 1) m = .finished m' := by
  simp only [runLoop, h]

theorem runLoop_of_running (spare : Nat → Nat) (fuel : Nat) (m m' : Machine)
    (h : iteration spare m = .running m') :
    runLoop spare (fuel + 1) m = runLoop spare fuel m' := by
  simp only [runLoop, h]

/-- C11: a Bind event received while bound or enabled, and an Enable event received while
not bound or while enabled, end the loop with the state, the writes and the number of
started workers unchanged; handling an event starts a worker only if the event is Enable
and the state is bound = true, enabled = false; on the events Bind, Bind `controlLoop`
terminates with no worker started. -/
theorem controlLoop_inconsistent_event (spare : Nat → Nat) (fuel : Nat) (m : Machine)
    (ev : FfsEvent) (c : Reader)
    (hread : ReadFfsEvent m.control = (.ok ev, c))
    (hviol : (ev.Type_ = FunctionfsBind ∧ (m.state.bound = true ∨ m.state.enabled = true)) ∨
      (ev.Type_ = FunctionfsEnable ∧ (m.state.bound = false ∨ m.state.enabled = true))) :
    runLoop spare (fuel + 1) m = .finished { m with control := c } ∧
    (∀ (ev' : FfsEvent) (m' : Machine),
      (handleEvent spare ev' m').machine.started ≠ m'.started →
        ev'.Type_ = FunctionfsEnable ∧ m'.state.bound = true ∧ m'.state.enabled = false ∧
          (handleEvent spare ev' m').machine.started = m'.started + 1) ∧
    controlLoop spare 2
        (Reader.ofBytes (eventRecord FunctionfsBind ++ eventRecord FunctionfsBind) 2)
      = .finished { state := { bound := true, enabled := false, working := false }
                    control := { data := [], script := [] }
                    writes := [], started := 0, stops := 0 } := by
  refine ⟨?_, ?_, rfl⟩
  · apply runLoop_of_finished
    rw [iteration_of_read spare m ev c hread]
    unfold handleEvent
    rcases hviol with ⟨ht, hb | he⟩ | ⟨ht, hb | he⟩
    · simp [ht, hb]
    · cases hb : m.state.bound <;> simp [ht, he, hb]
    · simp [ht, hb, FunctionfsEnable, FunctionfsBind]
    · cases hb : m.state.bound <;> simp [ht, he, hb, FunctionfsEnable, FunctionfsBind]
  · intro ev' m'
    unfold handleEvent
    split_ifs <;> simp_all [Outcome.machine]

theorem controlLoop_inconsistent_event_witness :
    runLoop (fun _ => 512) (0 + 1)
        { state := { bound := true, enabled := true, working := false }
          control := Reader.ofBytes (eventRecord FunctionfsEnable) 1
          writes := [], started := 1, stops := 0 }
      = .finished { state := { bound := true, enabled := true, working := false }
                    control := { data := [], script := [] }
                    writes := [], started := 1, stops := 0 } :=
  (controlLoop_inconsistent_event (fun _ => 512) 0
    { state := { bound := true, enabled := true, working := false }
      control := Reader.ofBytes (eventRecord FunctionfsEnable) 1
      writes := [], started := 1, stops := 0 }
    { Type_ := FunctionfsEnable
      SetupPayload := { RequestType := 0, Request := 0, Value := 0, Index := 0, Length := 0 } }
    { data := [], script := [] } rfl (Or.inr ⟨rfl, Or.inr rfl⟩)).1

/-- C12, as stated, fails for Unbind in the Enabled state: on the events Bind, Enable,
Unbind (a further record is left unread) the loop ends in bound = false, enabled = true,
which is not the Unbound state bound = false, enabled = false. -/
theorem controlLoop_unbind_in_enabled_not_unbound :
    controlLoop (fun _ => 512) 4
        (Reader.ofBytes (eventRecord FunctionfsBind ++ eventRecord FunctionfsEnable
          ++ eventRecord FunctionfsUnbind ++ eventRecord FunctionfsBind) 4)
      = .finished { state := { bound := false, enabled := true, working := false }
                    control := { data := eventRecord FunctionfsBind,
                                 script := [{ n := 48 }] }
                    writes := [], started := 1, stops := 0 } ∧
    ¬ ((controlLoop (fun _ => 512) 4
        (Reader.ofBytes (eventRecord FunctionfsBind ++ eventRecord FunctionfsEnable
          ++ eventRecord FunctionfsUnbind ++ eventRecord FunctionfsBind) 4)).machine.state.bound
          = false ∧
       (controlLoop (fun _ => 512) 4
        (Reader.ofBytes (eventRecord FunctionfsBind ++ eventRecord FunctionfsEnable
          ++ eventRecord FunctionfsUnbind ++ eventRecord FunctionfsBind) 4)).machine.state.enabled
          = false) :=
  ⟨rfl, by decide⟩

/-- C12, amended: a Disable event clears `enabled`, so received in the Enabled state it
leaves bound = true, enabled = false, and ends the loop; an Unbind event received in any
state clears `bound`, leaves `enabled` as it was and ends the loop, so it leaves the
Unbound state when received in the Unbound or Bound state and bound = false,
enabled = true when received in the Enabled state; in both cases the control reader is
left as the read of that event left it, whatever number of passes the loop may still
make. -/
theorem controlLoop_disable_unbind (spare : Nat → Nat) (fuel : Nat) (m : Machine)
    (ev : FfsEvent) (c : Reader)
    (hread : ReadFfsEvent m.control = (.ok ev, c)) :
    (ev.Type_ = FunctionfsDisable →
      runLoop spare (fuel + 1) m
        = .finished { m with control := c, state := { m.state with enabled := false } }) ∧
    (ev.Type_ = FunctionfsDisable → m.state.bound = true → m.state.enabled = true →
      ∃ m', runLoop spare (fuel + 1) m = .finished m' ∧ m'.state.bound = true ∧
        m'.state.enabled = false ∧ m'.control = c) ∧
    (ev.Type_ = FunctionfsUnbind →
      runLoop spare (fuel + 1) m
        = .finished { m with control := c, state := { m.state with bound := false } }) ∧
    (ev.Type_ = FunctionfsUnbind →
      ∃ m', runLoop spare (fuel + 1) m = .finished m' ∧ m'.state.bound = false ∧
        m'.state.enabled = m.state.enabled ∧ m'.control = c) := by
  have hd : ev.Type_ = FunctionfsDisable →
      runLoop spare (fuel + 1) m
        = .finished { m with control := c, state := { m.state with enabled := false } } := by
    intro ht
    apply runLoop_of_finished
    rw [iteration_of_read spare m ev c hread]
    simp [handleEvent, ht, FunctionfsDisable, FunctionfsBind, FunctionfsEnable]
  have hu : ev.Type_ = FunctionfsUnbind →
      runLoop spare (fuel + 1) m
        = .finished { m with control := c, state := { m.state with bound := false } } := by
    intro ht
    apply runLoop_of_finished
    rw [iteration_of_read spare m ev c hread]
    simp [handleEvent, ht, FunctionfsUnbind, FunctionfsDisable, FunctionfsBind,
      FunctionfsEnable]
  exact ⟨hd, fun ht hb _ => ⟨_, hd ht, hb, rfl, rfl⟩, hu, fun ht => ⟨_, hu ht, rfl, rfl, rfl⟩⟩

theorem controlLoop_disable_unbind_witness :
    runLoop (fun _ => 512) (3 + 1)
        { state := { bound := true, enabled := true, working := false }
          control := Reader.ofBytes (eventRecord FunctionfsDisable ++ eventRecord FunctionfsBind) 2
          writes := [], started := 1, stops := 0 }
      = .finished { state := { bound := true, enabled := false, working := false }
                    control := { data := eventRecord FunctionfsBind, script := [{ n := 24 }] }
                    writes := [], started := 1, stops := 0 } :=
  (controlLoop_disable_unbind (fun _ => 512) 3
    { state := { bound := true, enabled := true, working := false }
      control := Reader.ofBytes (eventRecord FunctionfsDisable ++ eventRecord FunctionfsBind) 2
      writes := [], started := 1, stops := 0 }
    { Type_ := FunctionfsDisable
      SetupPayload := { RequestType := 0, Request := 0, Value := 0, Index := 0, Length := 0 } }
    { data := eventRecord FunctionfsBind, script := [{ n := 24 }] } rfl).1 rfl


/-- C17: a Setup, Suspend or Resume event, or an event whose type tag is above 6, read in
any state leaves `state` as it was, starts no worker, sends no stop signal and does not end
the loop: the loop goes on with its next pass. -/
theorem controlLoop_neutral_event (spare : Nat → Nat) (fuel : Nat) (m : Machine)
    (ev : FfsEvent) (c : Reader)
    (hread : ReadFfsEvent m.control = (.ok ev, c))
    (htype : ev.Type_ = FunctionfsSetup ∨ ev.Type_ = FunctionfsSuspend ∨
      ev.Type_ = FunctionfsResume ∨ 6 < ev.Type_) :
    ∃ m', iteration spare m = .running m' ∧ m'.state = m.state ∧ m'.started = m.started ∧
      m'.stops = m.stops ∧ runLoop spare (fuel + 1) m = runLoop spare fuel m' := by
  have h0 : ev.Type_ ≠ FunctionfsBind ∧ ev.Type_ ≠ FunctionfsEnable ∧
      ev.Type_ ≠ FunctionfsDisable ∧ ev.Type_ ≠ FunctionfsUnbind := by
    simp only [FunctionfsSetup, FunctionfsSuspend, FunctionfsResume, FunctionfsBind,
      FunctionfsEnable, FunctionfsDisable, FunctionfsUnbind] at htype ⊢
    omega
  have hit := iteration_of_read spare m ev c hread
  simp only [handleEvent, h0.1, h0.2.1, h0.2.2.1, h0.2.2.2, if_false] at hit
  split_ifs at hit
  all_goals exact ⟨_, hit, rfl, rfl, rfl, runLoop_of_running spare fuel m _ hit⟩

theorem controlLoop_neutral_event_witness :
    ∃ m', iteration (fun _ => 512)
        { state := { bound := true, enabled := false, working := false }
          control := Reader.ofBytes (eventRecord FunctionfsSuspend) 1
          writes := [], started := 0, stops := 0 } = .running m' ∧
      m'.state = { bound := true, enabled := false, working := false } :=
  let ⟨m', h1, h2, _⟩ := controlLoop_neutral_event (fun _ => 512) 0
    { state := { bound := true, enabled := false, working := false }
      control := Reader.ofBytes (eventRecord FunctionfsSuspend) 1
      writes := [], started := 0, stops := 0 }
    { Type_ := FunctionfsSuspend
      SetupPayload := { RequestType := 0, Request := 0, Value := 0, Index := 0, Length := 0 } }
    { data := [], script := [] } rfl (Or.inr (Or.inl rfl))
  ⟨m', h1, h2⟩

theorem handleEvent_running_started (spare : Nat → Nat) (ev : FfsEvent) (m m' : Machine)
    (hJ : m.started = m.state.enabled.toNat ∧ (m.state.enabled = true → m.state.bound = true))
    (h : handleEvent spare ev m = .running m') :
    m'.started = m'.state.enabled.toNat ∧ (m'.state.enabled = true → m'.state.bound = true) := by
  unfold handleEvent at h
  split_ifs at h <;> simp only [Outcome.running.injEq, reduceCtorEq] at h <;> subst h <;>
    simp_all

theorem handleEvent_finished_started (spare : Nat → Nat) (ev : FfsEvent) (m m' : Machine)
    (h : handleEvent spare ev m = .finished m') : m'.started = m.started := by
  unfold handleEvent at h
  split_ifs at h <;> simp only [Outcome.finished.injEq, reduceCtorEq] at h <;> subst h <;> rfl

/-- While the loop of `controlLoop` runs, the number of workers started is 1 when
`enabled` is set and 0 when it is not; it never exceeds 1. -/
theorem runLoop_started (spare : Nat → Nat) (fuel : Nat) (m : Machine)
    (hJ : m.started = m.state.enabled.toNat ∧ (m.state.enabled = true → m.state.bound = true)) :
    (∀ m', runLoop spare fuel m = .running m' →
      m'.started = m'.state.enabled.toNat ∧ (m'.state.enabled = true → m'.state.bound = true)) ∧
    (runLoop spare fuel m).machine.started ≤ 1 := by
  have hle : ∀ x : Machine, x.started = x.state.enabled.toNat → x.started ≤ 1 := by
    intro x hx
    rw [hx]
    cases x.state.enabled <;> decide
  induction fuel generalizing m with
  | zero =>
    refine ⟨?_, hle m hJ.1⟩
    intro m' h
    simp only [runLoop, Outcome.running.injEq] at h
    subst h; exact hJ
  | succ fuel ih =>
    cases hr : ReadFfsEvent m.control with
    | mk res control =>
      cases res with
      | error err =>
        have hit : iteration spare m = .fatal err { m with control := control } := by
          simp only [iteration, hr]
        simp only [runLoop, hit]
        exact ⟨fun m' h => by simp at h, hle m hJ.1⟩
      | ok ev =>
        have hit := iteration_of_read spare m ev control hr
        cases hh : handleEvent spare ev { m with control := control } with
        | running m1 =>
          rw [hh] at hit
          rw [runLoop_of_running spare fuel m m1 hit]
          exact ih m1 (handleEvent_running_started spare ev { m with control := control } m1 hJ hh)
        | finished m1 =>
          rw [hh] at hit
          rw [runLoop_of_finished spare fuel m m1 hit]
          refine ⟨fun m' h => by simp at h, ?_⟩
          have := handleEvent_finished_started spare ev { m with control := control } m1 hh
          show m1.started ≤ 1
          rw [this]
          exact hle m hJ.1
        | fatal e m1 => exact absurd hh (handleEvent_not_fatal spare ev _ m1 e)

/-- C20: in every run of `controlLoop`, however long, at most one worker has been started;
once a worker has been started, the next Bind, Enable, Disable or Unbind event ends the
loop without starting another one. -/
theorem controlLoop_starts_at_most_one_worker (spare : Nat → Nat) (fuel : Nat)
    (control : Reader) :
    (controlLoop spare fuel control).machine.started ≤ 1 ∧
    (∀ m, controlLoop spare fuel control = .running m → m.started = 1 →
      ∀ (ev : FfsEvent) (c : Reader), ReadFfsEvent m.control = (.ok ev, c) →
        (ev.Type_ = FunctionfsBind ∨ ev.Type_ = FunctionfsEnable ∨
          ev.Type_ = FunctionfsDisable ∨ ev.Type_ = FunctionfsUnbind) →
        ∃ m', iteration spare m = .finished m' ∧ m'.started = 1) := by
  obtain ⟨h1, h2⟩ := runLoop_started spare fuel (Machine.initial control)
    ⟨rfl, by intro h; cases h⟩
  unfold controlLoop
  cases hr : runLoop spare fuel (Machine.initial control) with
  | running m =>
    rw [hr] at h2
    refine ⟨h2, ?_⟩
    intro m0 hm0 hs ev c hread htype
    simp only [Outcome.running.injEq] at hm0
    subst hm0
    obtain ⟨hst, hb⟩ := h1 m hr
    have hen : m.state.enabled = true := by
      cases he : m.state.enabled
      · rw [he] at hst; simp at hst; omega
      · rfl
    have hbd := hb hen
    rw [iteration_of_read spare m ev c hread]
    have hfin : ∃ m', handleEvent spare ev { m with control := c } = .finished m' := by
      rcases htype with ht | ht | ht | ht
      · exact ⟨_, by simp [handleEvent, ht, hbd]; rfl⟩
      · exact ⟨_, by simp [handleEvent, ht, hbd, hen, FunctionfsEnable, FunctionfsBind]; rfl⟩
      · exact ⟨_, by
          simp [handleEvent, ht, FunctionfsDisable, FunctionfsEnable, FunctionfsBind]; rfl⟩
      · exact ⟨_, by
          simp [handleEvent, ht, FunctionfsUnbind, FunctionfsDisable, FunctionfsEnable,
            FunctionfsBind]; rfl⟩
    obtain ⟨m', hm'⟩ := hfin
    exact ⟨m', hm', (handleEvent_finished_started spare ev _ m' hm').trans hs⟩
  | fatal e m =>
    rw [hr] at h2
    exact ⟨h2, fun m0 hm0 => by simp at hm0⟩
  | finished m =>
    rw [hr] at h2
    refine ⟨?_, fun m0 hm0 => by simp at hm0⟩
    have : (afterLoop m).started = m.started := by
      unfold afterLoop; split_ifs <;> rfl
    show (afterLoop m).started ≤ 1
    rw [this]; exact h2


/-! ## Setup handling -/

theorem limitedRead_zero (r : Reader) (len : Nat) :
    limitedRead r 0 len = ({ bytes := [], err := some .EOF, reader := r }, 0) := by
  simp [limitedRead]

theorem limitedRead_cons (data : List Nat) (step : ReadStep) (rest : List ReadStep)
    (n len : Nat) (hn : n ≠ 0) :
    limitedRead { data := data, script := step :: rest } n len =
      ({ bytes := data.take (min step.n (min len n)), err := step.err,
         reader := { data := data.drop (data.take (min step.n (min len n))).length,
                     script := rest } },
        n - (data.take (min step.n (min len n))).length) := by
  simp [limitedRead, hn, Read_cons]

/-- `ioutil.ReadAll(io.LimitReader(control, n))` takes at most `n` bytes off the stream. -/
theorem readAllLimited_data (spare : Nat → Nat) (script : List ReadStep) (data : List Nat)
    (n : Nat) (b : List Nat) :
    ∃ k, k ≤ n ∧ (readAllLimited spare script data n b).2.data = data.drop k := by
  induction script generalizing data n b with
  | nil => exact ⟨0, Nat.zero_le _, rfl⟩
  | cons s script ih =>
    by_cases hn : n = 0
    · subst hn
      refine ⟨0, Nat.le_refl _, ?_⟩
      simp [readAllLimited, limitedRead_zero]
    · have hd : (data.take (min s.n (min (spare b.length) n))).length ≤ n := by
        rw [List.length_take]; omega
      simp only [readAllLimited, limitedRead_cons _ _ _ _ _ hn]
      cases hs : s.err with
      | some e => cases e <;> exact ⟨_, hd, rfl⟩
      | none =>
        obtain ⟨k, hk, hk'⟩ := ih (data.drop (data.take (min s.n (min (spare b.length) n))).length)
          (n - (data.take (min s.n (min (spare b.length) n))).length)
          (b ++ data.take (min s.n (min (spare b.length) n)))
        refine ⟨(data.take (min s.n (min (spare b.length) n))).length + k, by omega, ?_⟩
        simp only []
        rw [hk', List.drop_drop]

/-- When the stream holds `n` bytes and its next `n` reads succeed with at least one byte
each, `ioutil.ReadAll(io.LimitReader(control, n))` takes exactly `n` bytes off it and
returns them without error. -/
theorem readAllLimited_exact (spare : Nat → Nat) (hspare : ∀ k, 0 < spare k)
    (pre post : List ReadStep) (data : List Nat) (n : Nat) (b : List Nat)
    (hok : ∀ s ∈ pre, s.err = none ∧ 1 ≤ s.n) (hpre : n ≤ pre.length)
    (hdata : n ≤ data.length) :
    (readAllLimited spare (pre ++ post) data n b).1 = (b ++ data.take n, none) ∧
    (readAllLimited spare (pre ++ post) data n b).2.data = data.drop n := by
  induction pre generalizing data n b with
  | nil =>
    have h0 : n = 0 := by simpa using hpre
    subst h0
    cases post with
    | nil => simp [readAllLimited]
    | cons s post => simp [readAllLimited, limitedRead_zero]
  | cons s pre ih =>
    by_cases hn : n = 0
    · subst hn
      simp [readAllLimited, limitedRead_zero]
    · have hs := hok s (List.mem_cons_self _ _)
      have hsp := hspare b.length
      have hlen : (data.take (min s.n (min (spare b.length) n))).length
          = min s.n (min (spare b.length) n) := by
        rw [List.length_take]; omega
      simp only [List.length_cons] at hpre
      obtain ⟨i1, i2⟩ := ih (data.drop (min s.n (min (spare b.length) n)))
        (n - min s.n (min (spare b.length) n))
        (b ++ data.take (min s.n (min (spare b.length) n)))
        (fun x hx => hok x (List.mem_cons_of_mem _ hx)) (by omega)
        (by rw [List.length_drop]; omega)
      have e1 : min s.n (min (spare b.length) n) + (n - min s.n (min (spare b.length) n)) = n := by
        omega
      simp only [List.cons_append, readAllLimited, limitedRead_cons _ _ _ _ _ hn, hs.1, hlen,
        List.append_eq]
      rw [i1, i2, List.append_assoc, ← List.take_add, List.drop_drop, e1]
      exact ⟨rfl, rfl⟩

/-- C15: a Setup event with the direction bit 0x80 set makes the loop write one empty
packet to the control endpoint and read nothing from it; with the bit clear the loop
writes nothing and takes at most `Length` bytes off the control stream, exactly `Length`
when the stream holds that many and its reads succeed with at least one byte each; in
every case, also when fewer bytes come, the state is unchanged and the loop goes on. -/
theorem controlLoop_setup (spare : Nat → Nat) (fuel : Nat) (m : Machine)
    (ev : FfsEvent) (c : Reader)
    (hread : ReadFfsEvent m.control = (.ok ev, c))
    (htype : ev.Type_ = FunctionfsSetup) :
    (ev.SetupPayload.RequestType &&& 0x80 ≠ 0 →
      iteration spare m = .running { m with control := c, writes := m.writes ++ [[]] }) ∧
    (ev.SetupPayload.RequestType &&& 0x80 = 0 →
      ∃ k m', k ≤ ev.SetupPayload.Length ∧ iteration spare m = .running m' ∧
        m'.writes = m.writes ∧ m'.state = m.state ∧ m'.started = m.started ∧
        m'.control.data = c.data.drop k ∧
        ((∀ j, 0 < spare j) → ∀ pre post : List ReadStep, c.script = pre ++ post →
          (∀ s ∈ pre, s.err = none ∧ 1 ≤ s.n) → ev.SetupPayload.Length ≤ pre.length →
          ev.SetupPayload.Length ≤ c.data.length →
          m'.control.data = c.data.drop ev.SetupPayload.Length)) ∧
    (∃ m', iteration spare m = .running m' ∧ m'.state = m.state ∧
      runLoop spare (fuel + 1) m = runLoop spare fuel m') := by
  have hit := iteration_of_read spare m ev c hread
  have hne : ev.Type_ ≠ FunctionfsBind ∧ ev.Type_ ≠ FunctionfsEnable ∧
      ev.Type_ ≠ FunctionfsDisable ∧ ev.Type_ ≠ FunctionfsUnbind := by
    rw [htype]; decide
  simp only [handleEvent, hne.1, hne.2.1, hne.2.2.1, hne.2.2.2, if_false, if_pos htype,
    DirectionIn] at hit
  refine ⟨?_, ?_, ?_⟩
  · intro hdir
    rw [hit, if_pos hdir]
  · intro hdir
    rw [if_neg (not_not.2 hdir)] at hit
    obtain ⟨k, hk, hk'⟩ := readAllLimited_data spare c.script c.data ev.SetupPayload.Length []
    refine ⟨k, _, hk, hit, rfl, rfl, rfl, hk', ?_⟩
    intro hspare pre post hscript hok hpre hdata
    show (readAllLimited spare c.script c.data ev.SetupPayload.Length []).2.data = _
    rw [hscript]
    exact (readAllLimited_exact spare hspare pre post c.data _ [] hok hpre hdata).2
  · split_ifs at hit
    all_goals exact ⟨_, hit, rfl, runLoop_of_running spare fuel m _ hit⟩

theorem controlLoop_setup_witness :
    iteration (fun _ => 512)
        { state := { bound := true, enabled := false, working := false }
          control := Reader.ofBytes [0x80, 6, 0, 1, 0, 0, 0x4A, 0, 4, 0, 0, 0] 1
          writes := [], started := 0, stops := 0 }
      = .running { state := { bound := true, enabled := false, working := false }
                   control := { data := [], script := [] }
                   writes := [] ++ [[]], started := 0, stops := 0 } :=
  (controlLoop_setup (fun _ => 512) 0
    { state := { bound := true, enabled := false, working := false }
      control := Reader.ofBytes [0x80, 6, 0, 1, 0, 0, 0x4A, 0, 4, 0, 0, 0] 1
      writes := [], started := 0, stops := 0 }
    { Type_ := FunctionfsSetup
      SetupPayload := { RequestType := 0x80, Request := 6, Value := 0x100, Index := 0,
                        Length := 0x4A } }
    { data := [], script := [] } rfl rfl).1 (by decide)

/-! ## Serialized form of one descriptor -/

/-- C16: on a destination of at least `descLength(desc)` bytes `setDescriptor` writes the
length byte (payload length + 2: 9 for an interface, 7 for an endpoint), the type byte
(0x04 interface, 0x05 endpoint) and the payload, returns `descLength(desc)` and leaves the
bytes of `dst` beyond that length as they were; the payload of an endpoint descriptor has
at offsets 2 and 3 the low and the high byte of `maxPacketSize`. -/
theorem setDescriptor_layout (desc : baseDescriptor) (dst : List Nat)
    (h : descLength desc ≤ dst.length) :
    setDescriptor dst desc
      = .ok ((desc.payload.length + 2) :: desc.dtype :: desc.payload
              ++ dst.drop (descLength desc), descLength desc) ∧
    (∀ id : interfaceDescriptor, desc = .intf id →
      desc.payload.length + 2 = 9 ∧ desc.dtype = 0x04 ∧ descLength desc = 9 ∧
      desc.payload = [id.interfaceNumber, id.alternateSetting, id.endpointsNumber, id.class_,
        id.subClass, id.protocol, id.intf]) ∧
    (∀ ed : endpointDescriptor, desc = .endpoint ed →
      desc.payload.length + 2 = 7 ∧ desc.dtype = 0x05 ∧ descLength desc = 7 ∧
      desc.payload = [ed.endpointAddress, ed.attributes, ed.maxPacketSize % 256,
        ed.maxPacketSize / 256 % 256, ed.interval] ∧
      (ed.maxPacketSize < 65536 →
        ed.maxPacketSize = desc.payload.getD 2 0 + 256 * desc.payload.getD 3 0)) := by
  refine ⟨?_, ?_, ?_⟩
  · have hsplit : dst = dst.take (descLength desc) ++ dst.drop (descLength desc) :=
      (List.take_append_drop _ _).symm
    have hlen : (dst.take (descLength desc)).length = descLength desc := by
      rw [List.length_take]; omega
    have hmod : descLength desc % 256 = desc.payload.length + 2 := by
      cases desc <;> rfl
    conv_lhs => rw [hsplit]
    rw [setDescriptor_append desc _ _ hlen, baseDescriptor.serialized, hmod]
  · rintro id rfl
    exact ⟨rfl, rfl, rfl, rfl⟩
  · rintro ed rfl
    refine ⟨rfl, rfl, rfl, ?_, ?_⟩
    · show ed.payload = _
      rw [endpoint_payload, Nat.shiftRight_eq_div_pow]
    · intro hlt
      show ed.maxPacketSize = ed.payload.getD 2 0 + 256 * ed.payload.getD 3 0
      rw [endpoint_payload, Nat.shiftRight_eq_div_pow]
      simp only [List.getD_cons_zero, List.getD_cons_succ]
      omega

theorem setDescriptor_layout_witness :
    setDescriptor [1, 2, 3, 4, 5, 6, 7, 8, 9] (.endpoint hsDescriptor.sink)
      = .ok (((baseDescriptor.endpoint hsDescriptor.sink).payload.length + 2)
              :: (baseDescriptor.endpoint hsDescriptor.sink).dtype
              :: (baseDescriptor.endpoint hsDescriptor.sink).payload
              ++ [1, 2, 3, 4, 5, 6, 7, 8, 9].drop
                  (descLength (.endpoint hsDescriptor.sink)),
             descLength (.endpoint hsDescriptor.sink)) :=
  (setDescriptor_layout (.endpoint hsDescriptor.sink) [1, 2, 3, 4, 5, 6, 7, 8, 9]
    (by decide)).1


/-! ## The command worker -/

theorem sliceRange_zero (s : List Nat) (hi : Nat) (h : hi ≤ s.length) :
    sliceRange s 0 hi = .ok (s.take hi) := by
  simp [sliceRange, h]

/-- The record `handleCommand` builds for command 1: one byte `len(description) % 256`,
then the description. -/
theorem identity_record (description : List Nat) :
    (do
      let data := makeBytes (description.length + 1)
      let data ← setIndex data 0 ((data.length - 1) % 256)
      let (data, _) ← onSlice data 1 fun sub => Except.ok (copy sub description, ())
      return data : Except Panic (List Nat))
      = .ok ((description.length % 256) :: description) := by
  have hc : copy (List.replicate description.length 0) description = description := by
    have := copy_append (List.replicate description.length 0) [] description (by simp)
    simpa using this
  simp [makeBytes, List.replicate_succ, setIndex, onSlice, bind, Except.bind, pure,
    Except.pure, hc]

theorem handleCommand_identity (env : Env) (session : ShellSession) (input : Reader)
    (output : List (List Nat)) (h7 : 7 ≤ env.BALENA_DEVICE_UUID.length) :
    handleCommand env session 1 input output
      = .ok { err := none, input := input,
              output := output ++
                [((sprintfDescription (env.BALENA_DEVICE_UUID.take 7) env.BALENA_DEVICE_TYPE
                    env.BALENA_HOST_OS_VERSION).length % 256)
                  :: sprintfDescription (env.BALENA_DEVICE_UUID.take 7) env.BALENA_DEVICE_TYPE
                    env.BALENA_HOST_OS_VERSION] } := by
  have hrec := identity_record (sprintfDescription (env.BALENA_DEVICE_UUID.take 7)
    env.BALENA_DEVICE_TYPE env.BALENA_HOST_OS_VERSION)
  simp only [bind, Except.bind, pure, Except.pure] at hrec
  simp only [handleCommand, sliceRange_zero _ _ h7, bind, Except.bind, pure, Except.pure,
    if_true, one_ne_zero, if_false]
  revert hrec
  cases setIndex (makeBytes ((sprintfDescription (env.BALENA_DEVICE_UUID.take 7)
      env.BALENA_DEVICE_TYPE env.BALENA_HOST_OS_VERSION).length + 1)) 0
      (((makeBytes ((sprintfDescription (env.BALENA_DEVICE_UUID.take 7)
        env.BALENA_DEVICE_TYPE env.BALENA_HOST_OS_VERSION).length + 1)).length - 1) % 256) with
  | error e => intro h; simp at h
  | ok d =>
    simp only []
    cases onSlice d 1 fun sub => Except.ok (copy sub (sprintfDescription
        (env.BALENA_DEVICE_UUID.take 7) env.BALENA_DEVICE_TYPE env.BALENA_HOST_OS_VERSION), ()) with
    | error e => intro h; simp at h
    | ok r =>
      intro h
      simp only [Except.ok.injEq] at h
      simp only [h]

theorem handleCommand_other (env : Env) (session : ShellSession) (c : Nat) (input : Reader)
    (output : List (List Nat)) (h1 : c ≠ 1) (h2 : c ≠ 2) :
    ∃ e, handleCommand env session c input output
      = .ok { err := some e, input := input, output := output } := by
  by_cases h0 : c = 0
  · exact ⟨.hostCommunicationProblem, by simp [handleCommand, h0]⟩
  · exact ⟨.unknownCommand, by simp [handleCommand, h0, h1, h2]⟩

theorem workerLoop_pass (env : Env) (session : ShellSession) (rest : List Bool)
    (w : WorkerState) (c : Nat) (input' : Reader) (res : CommandResult)
    (hrun : w.running = true)
    (hposted : waitForInput w.input = (some c, input'))
    (hcmd : handleCommand env session c input' w.output = .ok res) :
    workerLoop env session (false :: rest) w
      = workerLoop env session rest
          { input := res.input, output := res.output,
            running := if res.err.isSome then false else true } := by
  simp only [workerLoop, hrun, if_true, workerPass, hposted, hcmd, Bool.false_eq_true,
    if_false]

theorem workerLoop_not_running (env : Env) (session : ShellSession) (stops : List Bool)
    (w : WorkerState) (h : w.running = false) : workerLoop env session stops w = .stopped w := by
  cases stops <;> simp [workerLoop, h]


/-! ## Claims about the command worker -/

/-- C13, as stated, fails for long descriptions: with a device type of 247 bytes the
description has 256 bytes and the length byte of the record is 0. -/
theorem handleCommand_identity_length_wraps :
    handleCommand
        { BALENA_DEVICE_UUID := utf8Bytes "abc1234567"
          BALENA_DEVICE_TYPE := List.replicate 247 97
          BALENA_HOST_OS_VERSION := [] }
        { startError := none, reads := 0, output := [] } 1 { data := [], script := [] } []
      = .ok { err := none, input := { data := [], script := [] }
              output := [0 :: sprintfDescription (utf8Bytes "abc1234")
                          (List.replicate 247 97) []] } ∧
    (sprintfDescription (utf8Bytes "abc1234") (List.replicate 247 97) []).length = 256 := by
  have hu : (utf8Bytes "abc1234567").take 7 = utf8Bytes "abc1234" := by decide
  have hl : (utf8Bytes "abc1234").length = 7 := by decide
  have hlen : (sprintfDescription (utf8Bytes "abc1234") (List.replicate 247 97) []).length
      = 256 := by
    simp only [sprintfDescription, List.length_append, List.length_replicate, hl,
      List.length_cons, List.length_nil]
  refine ⟨?_, hlen⟩
  rw [handleCommand_identity _ _ _ _ (by decide)]
  simp only [hu, hlen, List.nil_append]

/-- C13, amended: for a device UUID of at least 7 bytes `handleCommand(1)` returns no
error and makes one write, of the record `[len] ++ s` with `s` the first 7 bytes of the
UUID, a tab, the device type, a blank and the OS version; `len` is the byte length of `s`
modulo 256, hence that length whenever `s` has at most 255 bytes. For UUID "abc1234567",
type "raspberrypi4" and OS version "1.2.3" the record is 26 followed by
"abc1234\traspberrypi4 1.2.3". -/
theorem handleCommand_identity_record (env : Env) (session : ShellSession) (input : Reader)
    (output : List (List Nat)) (h7 : 7 ≤ env.BALENA_DEVICE_UUID.length) :
    handleCommand env session 1 input output
      = .ok { err := none, input := input,
              output := output ++
                [((env.BALENA_DEVICE_UUID.take 7 ++ [9] ++ env.BALENA_DEVICE_TYPE ++ [32]
                    ++ env.BALENA_HOST_OS_VERSION).length % 256)
                  :: (env.BALENA_DEVICE_UUID.take 7 ++ [9] ++ env.BALENA_DEVICE_TYPE ++ [32]
                    ++ env.BALENA_HOST_OS_VERSION)] } ∧
    ((env.BALENA_DEVICE_UUID.take 7 ++ [9] ++ env.BALENA_DEVICE_TYPE ++ [32]
        ++ env.BALENA_HOST_OS_VERSION).length ≤ 255 →
      (env.BALENA_DEVICE_UUID.take 7 ++ [9] ++ env.BALENA_DEVICE_TYPE ++ [32]
        ++ env.BALENA_HOST_OS_VERSION).length % 256
      = (env.BALENA_DEVICE_UUID.take 7 ++ [9] ++ env.BALENA_DEVICE_TYPE ++ [32]
        ++ env.BALENA_HOST_OS_VERSION).length) ∧
    handleCommand
        { BALENA_DEVICE_UUID := utf8Bytes "abc1234567"
          BALENA_DEVICE_TYPE := utf8Bytes "raspberrypi4"
          BALENA_HOST_OS_VERSION := utf8Bytes "1.2.3" } session 1 input output
      = .ok { err := none, input := input,
              output := output ++ [26 :: utf8Bytes "abc1234\traspberrypi4 1.2.3"] } :=
  ⟨handleCommand_identity env session input output h7,
   fun h => Nat.mod_eq_of_lt (by omega),
   handleCommand_identity _ session input output (by decide)⟩

theorem handleCommand_identity_record_witness :
    handleCommand
        { BALENA_DEVICE_UUID := [1, 2, 3, 4, 5, 6, 7, 8]
          BALENA_DEVICE_TYPE := [65]
          BALENA_HOST_OS_VERSION := [66] }
        { startError := none, reads := 0, output := [] } 1 { data := [], script := [] } [[5]]
      = .ok { err := none, input := { data := [], script := [] }
              output := [[5]] ++
                [(([1, 2, 3, 4, 5, 6, 7, 8].take 7 ++ [9] ++ [65] ++ [32] ++ [66]).length % 256)
                  :: ([1, 2, 3, 4, 5, 6, 7, 8].take 7 ++ [9] ++ [65] ++ [32] ++ [66])] } :=
  (handleCommand_identity_record
    { BALENA_DEVICE_UUID := [1, 2, 3, 4, 5, 6, 7, 8]
      BALENA_DEVICE_TYPE := [65]
      BALENA_HOST_OS_VERSION := [66] }
    { startError := none, reads := 0, output := [] } { data := [], script := [] } [[5]]
    (by decide)).1

/-- C14, as stated, fails for command 1 when the variable BALENA_DEVICE_UUID is unset or
shorter than 7 bytes: the slice expression panics, `handleCommand` does not return, and the
worker does not go on to the next command. -/
theorem handleCommand_identity_short_uuid_panics :
    handleCommand
        { BALENA_DEVICE_UUID := [], BALENA_DEVICE_TYPE := [], BALENA_HOST_OS_VERSION := [] }
        { startError := none, reads := 0, output := [] } 1 { data := [], script := [] } []
      = .error .indexOutOfRange ∧
    worker
        { BALENA_DEVICE_UUID := [], BALENA_DEVICE_TYPE := [], BALENA_HOST_OS_VERSION := [] }
        { startError := none, reads := 0, output := [] } [false, false]
        (Reader.ofBytes [1, 1] 2) []
      = .panicked .indexOutOfRange
          { input := { data := [1], script := [{ n := 2 }] }, output := [], running := true } :=
  ⟨rfl, rfl⟩

/-- C14, amended: for every command byte other than 1 and 2 `handleCommand` returns an
error and writes nothing, and the worker pass that received it clears `running` and the
worker returns, whatever passes it might still make, with the input as the read of that
command left it; for command 1, when the device UUID has at least 7 bytes,
`handleCommand` returns no error and the worker goes on with its next pass. -/
theorem worker_dispatch (env : Env) (session : ShellSession) (c : Nat) (w : WorkerState)
    (input' : Reader) (rest : List Bool)
    (hrun : w.running = true)
    (hposted : waitForInput w.input = (some c, input')) :
    (c ≠ 1 → c ≠ 2 →
      ∃ e, handleCommand env session c input' w.output
          = .ok { err := some e, input := input', output := w.output } ∧
        workerLoop env session (false :: rest) w
          = .stopped { input := input', output := w.output, running := false }) ∧
    (c = 1 → 7 ≤ env.BALENA_DEVICE_UUID.length →
      ∃ data, handleCommand env session c input' w.output
          = .ok { err := none, input := input', output := w.output ++ [data] } ∧
        workerLoop env session (false :: rest) w
          = workerLoop env session rest
              { input := input', output := w.output ++ [data], running := true }) := by
  refine ⟨?_, ?_⟩
  · intro h1 h2
    obtain ⟨e, he⟩ := handleCommand_other env session c input' w.output h1 h2
    refine ⟨e, he, ?_⟩
    rw [workerLoop_pass env session rest w c input' _ hrun hposted he]
    exact workerLoop_not_running env session rest _ rfl
  · intro h1 h7
    subst h1
    have he := handleCommand_identity env session input' w.output h7
    refine ⟨_, he, ?_⟩
    rw [workerLoop_pass env session rest w 1 input' _ hrun hposted he]
    rfl

theorem worker_dispatch_witness :
    ∃ e, handleCommand
          { BALENA_DEVICE_UUID := [], BALENA_DEVICE_TYPE := [], BALENA_HOST_OS_VERSION := [] }
          { startError := none, reads := 0, output := [] } 99
          { data := [1], script := [{ n := 2 }] } []
        = .ok { err := some e, input := { data := [1], script := [{ n := 2 }] }, output := [] } ∧
      workerLoop
          { BALENA_DEVICE_UUID := [], BALENA_DEVICE_TYPE := [], BALENA_HOST_OS_VERSION := [] }
          { startError := none, reads := 0, output := [] } (false :: [false])
          { input := Reader.ofBytes [99, 1] 2, output := [], running := true }
        = .stopped { input := { data := [1], script := [{ n := 2 }] }, output := [],
                     running := false } :=
  (worker_dispatch
    { BALENA_DEVICE_UUID := [], BALENA_DEVICE_TYPE := [], BALENA_HOST_OS_VERSION := [] }
    { startError := none, reads := 0, output := [] } 99
    { input := Reader.ofBytes [99, 1] 2, output := [], running := true }
    { data := [1], script := [{ n := 2 }] } [false] rfl rfl).1 (by decide) (by decide)

/-- C19: `waitForInput` posts 0 when its read reports an error, posts the byte read when
the read succeeds with a byte, and posts nothing when the read succeeds with no byte; a
worker pass whose read reports an error therefore ends the worker exactly as a pass that
receives the command byte 0 does: `handleCommand(0)` returns its error, `running` is
cleared and the worker returns. -/
theorem waitForInput_posts (input : Reader) :
    (∀ e, (input.Read 1).err = some e → waitForInput input = (some 0, (input.Read 1).reader)) ∧
    ((input.Read 1).err = none → (input.Read 1).bytes ≠ [] →
      ∃ b, (input.Read 1).bytes = [b] ∧ waitForInput input = (some b, (input.Read 1).reader)) ∧
    ((input.Read 1).err = none → (input.Read 1).bytes = [] →
      waitForInput input = (none, (input.Read 1).reader)) ∧
    (∀ (env : Env) (session : ShellSession) (rest : List Bool) (w : WorkerState) (input' : Reader),
      w.running = true → waitForInput w.input = (some 0, input') →
        handleCommand env session 0 input' w.output
          = .ok { err := some .hostCommunicationProblem, input := input', output := w.output } ∧
        workerLoop env session (false :: rest) w
          = .stopped { input := input', output := w.output, running := false }) ∧
    (∀ (env : Env) (session : ShellSession) (rest : List Bool) (output : List (List Nat)) e,
      (input.Read 1).err = some e →
        workerLoop env session (false :: rest)
            { input := input, output := output, running := true }
          = .stopped { input := (input.Read 1).reader, output := output, running := false }) := by
  have hlen : (input.Read 1).bytes.length ≤ 1 := by
    unfold Reader.Read
    cases input.script with
    | nil => simp
    | cons s rest => simp only [List.length_take]; omega
  have hzero : ∀ (env : Env) (session : ShellSession) (rest : List Bool) (w : WorkerState)
      (input' : Reader), w.running = true → waitForInput w.input = (some 0, input') →
        handleCommand env session 0 input' w.output
          = .ok { err := some .hostCommunicationProblem, input := input', output := w.output } ∧
        workerLoop env session (false :: rest) w
          = .stopped { input := input', output := w.output, running := false } := by
    intro env session rest w input' hrun hposted
    have he : handleCommand env session 0 input' w.output
        = .ok { err := some .hostCommunicationProblem, input := input', output := w.output } := by
      simp [handleCommand]
    refine ⟨he, ?_⟩
    rw [workerLoop_pass env session rest w 0 input' _ hrun hposted he]
    exact workerLoop_not_running env session rest _ rfl
  have herr : ∀ e, (input.Read 1).err = some e →
      waitForInput input = (some 0, (input.Read 1).reader) := by
    intro e he
    simp only [waitForInput, he]
  refine ⟨herr, ?_, ?_, hzero, ?_⟩
  · intro hnone hne
    cases hb : (input.Read 1).bytes with
    | nil => exact absurd hb hne
    | cons b tl =>
      have htl : tl = [] := by
        rw [hb] at hlen
        simp only [List.length_cons] at hlen
        exact List.eq_nil_of_length_eq_zero (by omega)
      subst htl
      refine ⟨b, rfl, ?_⟩
      simp [waitForInput, hnone, hb]
  · intro hnone hnil
    simp [waitForInput, hnone, hnil]
  · intro env session rest output e he
    exact (hzero env session rest { input := input, output := output, running := true }
      (input.Read 1).reader rfl (herr e he)).2


/-! ## The host client -/

theorem storeAt_zero (n : Nat) (bytes : List Nat) (h : bytes.length ≤ n) :
    storeAt (makeBytes n) 0 bytes = bytes ++ List.replicate (n - bytes.length) 0 := by
  have h1 : min n bytes.length = bytes.length := by omega
  simp only [storeAt, copy, makeBytes, List.take_zero, List.drop_zero, List.nil_append,
    List.length_replicate, List.drop_replicate, Nat.sub_zero, h1, List.take_length]

/-- The client on a record of at most 250 bytes that arrives in one read: the buffer holds
the record followed by zeros, and the slice `buf[1:buf[0]]` is taken of it. -/
theorem clientDescription_of_record (x : Nat) (s : List Nat) (h : s.length + 1 ≤ 250) :
    clientDescription (Reader.ofBytes (x :: s) 1)
      = match sliceRange (x :: (s ++ List.replicate (250 - (s.length + 1)) 0)) 1 x with
        | .ok d => .ok d
        | .error p => .error (.runtime p) := by
  have hl : (makeBytes 250).length = 250 := List.length_replicate _ _
  have hm : min (s.length + 1) 250 = s.length + 1 := by omega
  have hread : Reader.Read (Reader.ofBytes (x :: s) 1) (makeBytes 250).length =
      { bytes := x :: s, err := none, reader := { data := [], script := [] } } := by
    have e : Reader.ofBytes (x :: s) 1
        = { data := x :: s, script := [{ n := s.length + 1 }] } := rfl
    rw [e, Read_cons, hl]
    simp only [hm, List.take_succ_cons, List.take_length, List.length_cons,
      List.drop_succ_cons, List.drop_length]
  have hstore := storeAt_zero 250 (x :: s) (by simp only [List.length_cons]; omega)
  simp only [List.length_cons, List.cons_append] at hstore
  simp only [clientDescription, hread, hstore, List.getD_cons_zero]

theorem sliceRange_one (x : Nat) (rest : List Nat) (k : Nat) (h : k ≤ rest.length) :
    sliceRange (x :: rest) 1 (k + 1) = .ok (rest.take k) := by
  have hc : 1 ≤ k + 1 ∧ k + 1 ≤ (x :: rest).length := by
    simp only [List.length_cons]; omega
  simp only [sliceRange, if_pos hc, List.take_succ_cons, List.drop_succ_cons, List.drop_zero]

/-- What the client makes of a record `[len(s)] ++ s` that arrives in one read: for a
description of 1 to 249 bytes the description without its last byte. -/
theorem clientDescription_record (s : List Nat) (h1 : 1 ≤ s.length) (h249 : s.length ≤ 249) :
    clientDescription (Reader.ofBytes (s.length :: s) 1) = .ok s.dropLast := by
  rw [clientDescription_of_record s.length s (by omega)]
  have hk : s.length = (s.length - 1) + 1 := by omega
  have hslice : sliceRange (s.length :: (s ++ List.replicate (250 - (s.length + 1)) 0)) 1
      ((s.length - 1) + 1) = .ok s.dropLast := by
    rw [sliceRange_one _ _ _ (by rw [List.length_append]; omega),
      List.take_append_of_le_length (by omega), List.dropLast_eq_take]
  rw [← hk] at hslice
  rw [hslice]

/-- C18 evaluated on the code: from the record the daemon writes for the description
"abc1234\traspberrypi4 1.2.3" (26 bytes) the client extracts "abc1234\traspberrypi4 1.2.",
the description without its last byte; so it does for every description of 1 to 249
bytes, and on the record of the empty description the slice expression panics. -/
theorem clientDescription_drops_last_byte :
    clientDescription (Reader.ofBytes (26 :: utf8Bytes "abc1234\traspberrypi4 1.2.3") 1)
      = .ok (utf8Bytes "abc1234\traspberrypi4 1.2.") ∧
    (∀ (session : ShellSession) (input : Reader),
      handleCommand
          { BALENA_DEVICE_UUID := utf8Bytes "abc1234567"
            BALENA_DEVICE_TYPE := utf8Bytes "raspberrypi4"
            BALENA_HOST_OS_VERSION := utf8Bytes "1.2.3" } session 1 input []
        = .ok { err := none, input := input,
                output := [26 :: utf8Bytes "abc1234\traspberrypi4 1.2.3"] }) ∧
    (∀ s : List Nat, 1 ≤ s.length → s.length ≤ 249 →
      clientDescription (Reader.ofBytes (s.length :: s) 1) = .ok s.dropLast) ∧
    clientDescription (Reader.ofBytes [0] 1) = .error (.runtime .indexOutOfRange) := by
  refine ⟨?_, fun session input => handleCommand_identity _ session input [] (by decide),
    clientDescription_record, ?_⟩
  · have h := clientDescription_record (utf8Bytes "abc1234\traspberrypi4 1.2.3")
      (by decide) (by decide)
    have hl : (utf8Bytes "abc1234\traspberrypi4 1.2.3").length = 26 := by decide
    have hd : (utf8Bytes "abc1234\traspberrypi4 1.2.3").dropLast
        = utf8Bytes "abc1234\traspberrypi4 1.2." := by decide
    rw [hl, hd] at h
    exact h
  · rw [clientDescription_of_record 0 [] (by decide)]
    have hs : sliceRange (0 :: ([] ++ List.replicate (250 - (([] : List Nat).length + 1)) 0)) 1 0
        = .error .indexOutOfRange := by
      simp only [sliceRange]
      rw [if_neg (by omega)]
    rw [hs]

end Bdb
